import Mathlib

/-!
Verification of the claude-usage analyzer (src/claude_usage.py and
src/build/lib/claude_usage.py) against its natural-language specification.

Conventions of the shallow embedding:
* Python `datetime` values are rationals (seconds on a naive UTC time line);
  `timedelta.total_seconds()` is plain subtraction.
* Python `float` costs are rationals.
* Python dicts that are used as insertion-ordered maps become association
  lists (`List (key × value)`); `dict[k] = v` keeps the position of an
  existing key, a new key is appended at the end.
* Python sets whose iteration order is never observed become lists with
  membership-preserving insertion.
* A JSON field that may be absent or `null` becomes an `Option`.
-/

namespace ClaudeUsage

/-- Token usage of one event, i.e. the `message.usage` object of a JSONL line. -/
structure Usage where
  input_tokens : Nat
  output_tokens : Nat
  cache_creation_input_tokens : Nat
  cache_read_input_tokens : Nat
deriving Repr, DecidableEq

/-- The `timestamp` field of a JSONL line, as the Python code sees it after
`datetime.fromisoformat`: the key can be absent, present but unparsable
(`fromisoformat` raises `ValueError`), or parsed to a naive datetime
(seconds, as a rational). -/
inductive TsField
  | absent
  | unparsable
  | parsed (t : ℚ)
deriving Repr, DecidableEq

/-- The parsed timestamp when there is one (this is what the guarded
`try/except` parse at the top of the processing loop produces). -/
def TsField.toOption : TsField → Option ℚ
  | .parsed t => some t
  | _ => none

/-- One decoded JSONL line.  `usage = none` models a line that has no
`message.usage` object (including malformed-JSON lines, which the code
skips); such a line is never aggregated.  `costUSD = none` models the key
being absent or `null`. -/
structure Entry where
  timestamp : TsField
  messageId : Option String
  requestId : Option String
  usage : Option Usage
  costUSD : Option ℚ
  model : Option String
deriving Repr, DecidableEq

/-- Per-model price-table record, mirroring the four keys kept by
`get_pricing_data`; `none` models an absent or `null` rate. -/
structure ModelPricing where
  input_cost_per_token : Option ℚ
  output_cost_per_token : Option ℚ
  cache_creation_input_token_cost : Option ℚ
  cache_read_input_token_cost : Option ℚ
deriving Repr, DecidableEq

/-- The price table: modelId → rates (a finite map, first match wins). -/
abbrev PricingData := List (String × ModelPricing)

/-- First-match lookup in an association list (Python `d.get(k)` / `d[k]`). -/
def lookupA {κ α : Type} [BEq κ] (l : List (κ × α)) (k : κ) : Option α :=
  (l.find? (fun p => p.1 == k)).map Prod.snd

/-- The Python idiom `d[k] = f(d.get(k, init))` — equivalently a defaultdict
access followed by a mutation: an existing key keeps its position and its
value is transformed by `f`, a new key is appended with `f init`. -/
def upsertA {κ α : Type} [BEq κ] (l : List (κ × α)) (k : κ) (f : α → α) (init : α) :
    List (κ × α) :=
  if l.any (fun p => p.1 == k) then
    l.map (fun p => if p.1 == k then (p.1, f p.2) else p)
  else l ++ [(k, f init)]

/-- The keys of an association list, in order. -/
def keysOf {κ α : Type} (l : List (κ × α)) : List κ := l.map Prod.fst

/-- Python `str.split(sep)` for a one-character separator, on the character
list: splitting the empty string gives `[[]]`, and every separator occurrence
opens a new (possibly empty) chunk. -/
def splitOnChar (sep : Char) : List Char → List (List Char)
  | [] => [[]]
  | c :: rest =>
    let r := splitOnChar sep rest
    if c = sep then [] :: r
    else
      match r with
      | [] => [[c]]
      | g :: gs => (c :: g) :: gs

/-- Python `s.split(sep)` for a one-character separator. -/
def pySplit (s : String) (sep : Char) : List String :=
  (splitOnChar sep s.data).map (fun l => String.mk l)

/-- Python `s.startswith('-')`. -/
def startsWithDash (s : String) : Bool :=
  match s.data with
  | c :: _ => c == '-'
  | [] => false

/-- Python `s[1:]` (drop the first character). -/
def strDrop1 (s : String) : String := String.mk (s.data.drop 1)

/-- Python `s[:n]` (keep the first `n` characters). -/
def strTake (s : String) (n : Nat) : String := String.mk (s.data.take n)

/-- Python string `<` (code-point lexicographic), stated on the character
list — the same order as `String.lt`, in a kernel-computable form. -/
def strLt (a b : String) : Prop := a.data < b.data

instance (a b : String) : Decidable (strLt a b) :=
  inferInstanceAs (Decidable (a.data < b.data))

/-- Python truthiness of an optional number: `None` and `0` are falsy. -/
def truthyQ : Option ℚ → Bool
  | none => false
  | some q => q != 0

/-- Python truthiness of an integer: `0` is falsy. -/
def truthyN (n : Nat) : Bool := n != 0

/-- `calculate_cost_from_tokens` (src/claude_usage.py lines 67-95): unknown
model yields 0; each of the four categories adds `tokens * rate` only when
both the rate and the token count are truthy. -/
def calculate_cost_from_tokens (pricing_data : PricingData) (tokens : Usage)
    (model_name : String) : ℚ :=
  match lookupA pricing_data model_name with
  | none => 0
  | some pricing =>
    let cost : ℚ := 0
    let cost := if truthyQ pricing.input_cost_per_token && truthyN tokens.input_tokens then
        cost + tokens.input_tokens * (pricing.input_cost_per_token.getD 0)
      else cost
    let cost := if truthyQ pricing.output_cost_per_token && truthyN tokens.output_tokens then
        cost + tokens.output_tokens * (pricing.output_cost_per_token.getD 0)
      else cost
    let cost := if truthyQ pricing.cache_creation_input_token_cost &&
        truthyN tokens.cache_creation_input_tokens then
        cost + tokens.cache_creation_input_tokens *
          (pricing.cache_creation_input_token_cost.getD 0)
      else cost
    let cost := if truthyQ pricing.cache_read_input_token_cost &&
        truthyN tokens.cache_read_input_tokens then
        cost + tokens.cache_read_input_tokens * (pricing.cache_read_input_token_cost.getD 0)
      else cost
    cost

/-- The three cost modes of the analyzer. -/
inductive CostMode
  | auto
  | calculate
  | display
deriving Repr, DecidableEq

/-- `calculate_entry_cost` (src/claude_usage.py lines 257-273).  The caller
always passes the four-key `current_usage` dict, which is truthy, so the
Python guard `if current_usage and current_model` reduces to the model being
present.  `display` returns `data.get('costUSD', 0) or 0` (so `0` for an
absent, `null`, or zero declared cost). -/
def calculate_entry_cost (mode : CostMode) (pricing : PricingData) (costUSD : Option ℚ)
    (current_usage : Usage) (current_model : Option String) : ℚ :=
  match mode with
  | .display =>
    match costUSD with
    | some c => if c = 0 then 0 else c
    | none => 0
  | .calculate =>
    match current_model with
    | some m => calculate_cost_from_tokens pricing current_usage m
    | none => 0
  | .auto =>
    match costUSD with
    | some c => c
    | none =>
      match current_model with
      | some m => calculate_cost_from_tokens pricing current_usage m
      | none => 0

/-- `create_unique_hash` (lines 132-141): the dedup fingerprint
`messageId:requestId`, or `None` when either component is missing. -/
def create_unique_hash (e : Entry) : Option String :=
  match e.messageId, e.requestId with
  | some m, some r => some (m ++ ":" ++ r)
  | _, _ => none

/-- The dedup window in hours (local constant of
`process_files_with_global_dedup`, line 334). -/
def dedup_window_hours : ℚ := 24

/-- The cleanup threshold (line 335). -/
def dedup_cleanup_threshold : Nat := 10000

/-- The mutable deduplication state of the global pass:
`global_processed_hashes` (a set, here a list used only through membership)
and `hash_timestamps` (an insertion-ordered dict fingerprint → firstSeen). -/
structure DedupState where
  global_processed_hashes : List String
  hash_timestamps : List (String × ℚ)
deriving Repr, DecidableEq

/-- Lookup of a fingerprint's firstSeen timestamp (`hash_timestamps[h]`,
with `none` for `h not in hash_timestamps`). -/
def lookupTS (ts : List (String × ℚ)) (h : String) : Option ℚ :=
  lookupA ts h

/-- The `skip_duplicate` decision (lines 382-390): a fingerprinted event
whose hash was seen before is skipped unless both the stored firstSeen and
the current timestamp are present and more than `dedup_window_hours` apart
(the elapsed time is `total_seconds() / 3600`, compared with `<=`). -/
def skip_duplicate_check (st : DedupState) (unique_hash : Option String)
    (current_timestamp : Option ℚ) : Bool :=
  match unique_hash with
  | none => false
  | some h =>
    if h ∈ st.global_processed_hashes then
      match lookupTS st.hash_timestamps h, current_timestamp with
      | some t0, some t => decide (|t - t0| / 3600 ≤ dedup_window_hours)
      | _, _ => true
    else false

/-- Set insertion (`global_processed_hashes.add`): membership-preserving. -/
def insertHash (l : List String) (h : String) : List String :=
  if h ∈ l then l else l ++ [h]

/-- Dict write `hash_timestamps[h] = t`: an existing key keeps its position
and gets the new value, a new key is appended. -/
def setTS (ts : List (String × ℚ)) (h : String) (t : ℚ) : List (String × ℚ) :=
  upsertA ts h (fun _ => t) t

/-- Marking an admitted event as processed (lines 397-400): the hash joins
the global set, and when the event has a timestamp it becomes (or resets)
the stored firstSeen. -/
def mark_processed (st : DedupState) (unique_hash : Option String)
    (current_timestamp : Option ℚ) : DedupState :=
  match unique_hash with
  | none => st
  | some h =>
    { global_processed_hashes := insertHash st.global_processed_hashes h
      hash_timestamps :=
        match current_timestamp with
        | some t => setTS st.hash_timestamps h t
        | none => st.hash_timestamps }

/-- Periodic cleanup (lines 402-408): when more than
`dedup_cleanup_threshold` fingerprints are tracked and the current event has
a timestamp, every entry strictly older than `2 * dedup_window_hours` before
it is dropped from both structures. -/
def dedup_cleanup (st : DedupState) (current_timestamp : Option ℚ) : DedupState :=
  match current_timestamp with
  | none => st
  | some t =>
    if st.hash_timestamps.length > dedup_cleanup_threshold then
      let cutoff := t - dedup_window_hours * 2 * 3600
      let old_hashes := (st.hash_timestamps.filter (fun p => decide (p.2 < cutoff))).map Prod.fst
      { global_processed_hashes :=
          st.global_processed_hashes.filter (fun h => !(old_hashes.contains h))
        hash_timestamps := st.hash_timestamps.filter (fun p => !(decide (p.2 < cutoff))) }
    else st

/-- The dedup-state update performed for an admitted (non-skipped) event:
mark as processed, then run the periodic cleanup. -/
def dedup_mark_cleanup (st : DedupState) (unique_hash : Option String)
    (current_timestamp : Option ℚ) : DedupState :=
  dedup_cleanup (mark_processed st unique_hash current_timestamp) current_timestamp

/-- One session's accumulator (the `sessions_by_dir` defaultdict value,
lines 312-321).  `models_used` is a set, kept as an insertion-ordered list
used only through membership and final listing. -/
structure SessionData where
  total_cost : ℚ
  input_tokens : Nat
  output_tokens : Nat
  cache_creation_tokens : Nat
  cache_read_tokens : Nat
  last_activity : Option String
  models_used : List String
  session_dir : Option String
deriving Repr, DecidableEq

/-- The defaultdict default value (lines 312-321). -/
def SessionData.empty : SessionData :=
  { total_cost := 0, input_tokens := 0, output_tokens := 0, cache_creation_tokens := 0
    cache_read_tokens := 0, last_activity := none, models_used := [], session_dir := none }

/-- `sessions_by_dir[dir]` followed by a mutation: an existing entry is
updated in place, a missing one is created from the default first. -/
def updateSessions (sessions : List (String × SessionData)) (dir : String)
    (f : SessionData → SessionData) : List (String × SessionData) :=
  upsertA sessions dir f SessionData.empty

/-- The four analyzer commands. -/
inductive Command
  | daily
  | monthly
  | session
  | blocks
deriving Repr, DecidableEq

/-- The options and analyzer configuration threaded through the pass. -/
structure Config where
  command : Command
  last : Option Nat
  cost_mode : CostMode
  pricing : PricingData

/-- `need_timestamps` (line 325). -/
def Config.need_timestamps (cfg : Config) : Bool :=
  cfg.command == .daily || cfg.command == .session

/-- Left-pad with zeros to a fixed width. -/
def padZeros (s : String) (n : Nat) : String :=
  String.mk (List.replicate (n - s.length) '0') ++ s

/-- Models `date.strftime('%Y-%m-%d')` after conversion to the local
timezone (lines 440-445), for a fixed zero-offset timezone: an injective,
order-preserving (on the civil era) encoding of the event's day as a
fixed-width string of its day number since the epoch. -/
def local_date_string (t : ℚ) : String :=
  let d : ℤ := ⌊t / 86400⌋
  if d < 0 then "-" ++ padZeros (toString (-d).toNat) 10
  else padZeros (toString d.toNat) 10

/-- The whole mutable state of `process_files_with_global_dedup`. -/
structure GlobalState where
  dedup : DedupState
  sessions : List (String × SessionData)
  total_entries_processed : Nat
  total_entries_skipped : Nat
deriving Repr, DecidableEq

/-- The initial state (lines 311-339). -/
def GlobalState.init : GlobalState :=
  { dedup := { global_processed_hashes := [], hash_timestamps := [] }
    sessions := [], total_entries_processed := 0, total_entries_skipped := 0 }

/-- Result of processing one line: `ok st counted` (with `counted` true when
the entry was admitted and aggregated, setting `has_session_data`), or
`crash st` when the unguarded `datetime.fromisoformat` at line 439 raises on
an unparsable timestamp, aborting the whole file (caught by the per-file
`except Exception` at line 472). -/
inductive LineResult
  | ok (st : GlobalState) (counted : Bool)
  | crash (st : GlobalState)
deriving Repr

/-- Processing of one decoded line inside the per-file loop
(lines 358-463), in source order: usage check, fingerprint, guarded
timestamp parse, dedup decision, marking, cleanup, cost, activity date
(which can crash the file), session aggregation. -/
def processEntry (cfg : Config) (st : GlobalState) (session_dir : String)
    (e : Entry) : LineResult :=
  match e.usage with
  | none => .ok st false
  | some usage =>
    let st := { st with total_entries_processed := st.total_entries_processed + 1 }
    let unique_hash := create_unique_hash e
    let current_timestamp := e.timestamp.toOption
    if skip_duplicate_check st.dedup unique_hash current_timestamp then
      .ok { st with total_entries_skipped := st.total_entries_skipped + 1 } false
    else
      let st := { st with dedup := dedup_mark_cleanup st.dedup unique_hash current_timestamp }
      let entry_cost := calculate_entry_cost cfg.cost_mode cfg.pricing e.costUSD usage e.model
      let activity : Option (Option String) :=
        if cfg.need_timestamps then
          match e.timestamp with
          | .absent => some none
          | .unparsable => none
          | .parsed t => some (some (local_date_string t))
        else some none
      match activity with
      | none => .crash st
      | some activity_date =>
        let st :=
          { st with sessions := updateSessions st.sessions session_dir (fun sd =>
              let sd := { sd with
                session_dir := some session_dir
                total_cost := sd.total_cost + entry_cost
                input_tokens := sd.input_tokens + usage.input_tokens
                output_tokens := sd.output_tokens + usage.output_tokens
                cache_creation_tokens :=
                  sd.cache_creation_tokens + usage.cache_creation_input_tokens
                cache_read_tokens := sd.cache_read_tokens + usage.cache_read_input_tokens }
              let sd :=
                match e.model with
                | some m => { sd with models_used := insertHash sd.models_used m }
                | none => sd
              match activity_date with
              | some d =>
                if cfg.need_timestamps &&
                    (sd.last_activity == none ||
                      decide (strLt (sd.last_activity.getD "") d)) then
                  { sd with last_activity := some d }
                else sd
              | none => sd) }
        .ok st true

/-- One JSONL file of the corpus: its path, its stat modification time, the
session directory that contains it, and its decoded lines. -/
structure FileData where
  path : String
  mtime : ℚ
  session_dir : String
  entries : List Entry
deriving Repr, DecidableEq

/-- The per-file line loop (lines 353-463), with the abort-on-exception
semantics: a crash stops the file, keeping the state mutated so far. -/
def processFileLines (cfg : Config) (dir : String) :
    GlobalState → Bool → List Entry → GlobalState × Bool × Bool
  | st, hasData, [] => (st, hasData, false)
  | st, hasData, e :: rest =>
    match processEntry cfg st dir e with
    | .ok st2 counted => processFileLines cfg dir st2 (hasData || counted) rest
    | .crash st2 => (st2, hasData, true)

/-- Python truthiness of `options.get('last')`. -/
def truthyLast : Option Nat → Bool
  | none => false
  | some n => n != 0

/-- The file loop of `process_files_with_global_dedup` (lines 342-475):
early-exit check, per-file processing (a crashed file is simply `continue`d
after its partial effects), and the session-count update (lines 468-470),
which is skipped when the file raised. -/
def processFilesLoop (cfg : Config) :
    GlobalState → Nat → List FileData → GlobalState
  | st, _, [] => st
  | st, session_count, f :: rest =>
    if truthyLast cfg.last && cfg.command == .session &&
        decide (session_count ≥ cfg.last.getD 0) then st
    else
      match processFileLines cfg f.session_dir st false f.entries with
      | (st2, hasData, crashed) =>
        let session_count :=
          if !crashed && hasData &&
              !((st2.sessions.map (fun p => p.2.session_dir)).contains (some f.session_dir))
          then session_count + 1 else session_count
        processFilesLoop cfg st2 session_count rest

/-- `extract_session_info` (lines 120-130): sessionId is the directory name;
the project name is the last dash-separated component (after a leading dash)
or the last slash component. -/
def extract_session_info (session_dir_name : String) : String × String :=
  if startsWithDash session_dir_name then
    (session_dir_name, (pySplit (strDrop1 session_dir_name) '-').getLastD "unknown")
  else (session_dir_name, (pySplit session_dir_name '/').getLastD "unknown")

/-- One element of the returned session list (lines 493-503). -/
structure SessionOut where
  sessionId : String
  projectPath : String
  inputTokens : Nat
  outputTokens : Nat
  cacheCreationTokens : Nat
  cacheReadTokens : Nat
  totalCost : ℚ
  lastActivity : String
  modelsUsed : List String
deriving Repr, DecidableEq

/-- The final record built for one kept session (lines 489-503). -/
def mkSessionOut (dir : String) (sd : SessionData) : SessionOut :=
  { sessionId := (extract_session_info dir).1
    projectPath := (extract_session_info dir).2
    inputTokens := sd.input_tokens
    outputTokens := sd.output_tokens
    cacheCreationTokens := sd.cache_creation_tokens
    cacheReadTokens := sd.cache_read_tokens
    totalCost := sd.total_cost
    lastActivity := sd.last_activity.getD "1970-01-01"
    modelsUsed := sd.models_used }

/-- The conversion loop (lines 484-505): sessions whose accumulated cost,
input tokens and output tokens are all zero are skipped. -/
def convertSessions (sessions : List (String × SessionData)) : List SessionOut :=
  (sessions.filter (fun p =>
      !(decide (p.2.total_cost = 0) && decide (p.2.input_tokens = 0) &&
        decide (p.2.output_tokens = 0)))).map
    (fun p => mkSessionOut p.1 p.2)

/-- `process_files_with_global_dedup` (lines 308-505) over decoded files. -/
def process_files_with_global_dedup (cfg : Config) (sorted_files : List FileData) :
    List SessionOut :=
  convertSessions (processFilesLoop cfg GlobalState.init 0 sorted_files).sessions

/-- `get_earliest_timestamp` (lines 143-172): earliest parseable timestamp
of a file's lines, `None` when there is none (unparsable lines are skipped
by the inner `try/except`). -/
def get_earliest_timestamp (f : FileData) : Option ℚ :=
  f.entries.foldl (fun acc e =>
    match e.timestamp with
    | .parsed t =>
      match acc with
      | none => some t
      | some a => if t < a then some t else some a
    | _ => acc) none

/-- The sort key built by `sort_all_files_by_timestamp` (lines 275-304):
primary the stat mtime, secondary the earliest content timestamp — parsed
only when the corpus has fewer than 100 files, and falling back to the mtime
when absent (datetimes are always truthy). -/
def fileSortKey (n : Nat) (f : FileData) : ℚ × ℚ :=
  let content_timestamp : Option ℚ := if n < 100 then get_earliest_timestamp f else none
  (f.mtime, content_timestamp.getD f.mtime)

/-- Lexicographic `<=` on sort keys, as tuple comparison in Python's sort. -/
abbrev keyLE (a b : ℚ × ℚ) : Prop :=
  a.1 < b.1 ∨ (a.1 = b.1 ∧ a.2 ≤ b.2)

/-- `sort_all_files_by_timestamp` (lines 275-306): a stable sort of the
corpus by `(mtime, secondary timestamp)`; Python's `list.sort` is stable, so
any stable sorting algorithm (here insertion sort) is extensionally the same
function. -/
def sort_all_files_by_timestamp (files : List FileData) : List FileData :=
  files.insertionSort (fun f g =>
    keyLE (fileSortKey files.length f) (fileSortKey files.length g))

/-- The aggregation pipeline run by `aggregate_data_parallel` over the
collected corpus (lines 569-573): global sort, then the single-pass global
dedup processing. -/
def aggregate_corpus (cfg : Config) (files : List FileData) : List SessionOut :=
  process_files_with_global_dedup cfg (sort_all_files_by_timestamp files)

/-- Python `limit or default` for the display limits: `None` and `0` fall
back to the default. -/
def pyOr (limit : Option Nat) (d : Nat) : Nat :=
  match limit with
  | some n => if n = 0 then d else n
  | none => d

/-- Python `l[-k:]` for `k > 0` (the code only uses positive `k`); kept
total by returning `l` at `k = 0`, like Python's `l[-0:]`. -/
def pySliceLast {α : Type} (k : Nat) (l : List α) : List α :=
  if k = 0 then l else l.drop (l.length - k)

/-- One per-project rollup inside a day (lines 594-599). -/
structure ProjectGroup where
  project : String
  sessions : Nat
  totalCost : ℚ
  totalTokens : Nat
deriving Repr, DecidableEq

/-- One element of the daily breakdown (lines 623-628). -/
structure DayEntry where
  date : String
  projects : List ProjectGroup
  totalCost : ℚ
  totalSessions : Nat
deriving Repr, DecidableEq

/-- One element of the monthly rollup (lines 638-642). -/
structure MonthEntry where
  month : String
  totalCost : ℚ
  totalSessions : Nat
deriving Repr, DecidableEq

/-- The date key a session is grouped under (lines 580-589): its
`lastActivity` unless that is empty, `'unknown'` or the `'1970-01-01'`
placeholder. -/
def sessionDateKey (s : SessionOut) : String :=
  if s.lastActivity != "" && s.lastActivity != "unknown" &&
      s.lastActivity != "1970-01-01" then
    s.lastActivity
  else "unknown"

/-- `defaultdict(list)` grouping: append under an existing key, create a new
singleton group otherwise. -/
def upsertGroup (groups : List (String × List SessionOut)) (k : String)
    (s : SessionOut) : List (String × List SessionOut) :=
  upsertA groups k (fun g => g ++ [s]) []

/-- The `date_groups` dict (lines 577-590). -/
def dateGroups (sessions : List SessionOut) : List (String × List SessionOut) :=
  sessions.foldl (fun acc s => upsertGroup acc (sessionDateKey s) s) []

/-- Project name extraction inside the daily loop (lines 602-607), same
logic as `extract_session_info` applied to the stored ids. -/
def projectNameOf (s : SessionOut) : String :=
  if s.sessionId != "" && startsWithDash s.sessionId then
    (pySplit (strDrop1 s.sessionId) '-').getLastD "unknown"
  else (pySplit s.projectPath '/').getLastD "unknown"

/-- Total tokens of a session over the four categories (lines 613-618). -/
def SessionOut.totalTokens (s : SessionOut) : Nat :=
  s.inputTokens + s.outputTokens + s.cacheCreationTokens + s.cacheReadTokens

/-- The per-day project accumulation (lines 601-618). -/
def upsertProject (groups : List (String × ProjectGroup)) (s : SessionOut) :
    List (String × ProjectGroup) :=
  let name := projectNameOf s
  upsertA groups name
    (fun g => { project := name, sessions := g.sessions + 1
                totalCost := g.totalCost + s.totalCost
                totalTokens := g.totalTokens + s.totalTokens })
    { project := "", sessions := 0, totalCost := 0, totalTokens := 0 }

/-- One day's record (lines 593-628): project breakdown sorted by descending
cost (stable), day total summed over the day's sessions. -/
def mkDayEntry (date : String) (sessions : List SessionOut) : DayEntry :=
  let projects := (sessions.foldl upsertProject []).map Prod.snd
  { date := date
    projects := projects.insertionSort (fun a b => b.totalCost ≤ a.totalCost)
    totalCost := (sessions.map SessionOut.totalCost).sum
    totalSessions := sessions.length }

/-- `process_daily_with_projects` (lines 575-634): group by activity date,
build day records, sort by date descending (stable), keep the first
`limit or 30` days. -/
def process_daily_with_projects (session_data : List SessionOut)
    (limit : Option Nat) : List DayEntry :=
  let result := (dateGroups session_data).map (fun p => mkDayEntry p.1 p.2)
  let result := result.insertionSort (fun a b => ¬ strLt a.date b.date)
  result.take (pyOr limit 30)

/-- A day's month key (`day['date'][:7]`, line 645). -/
def DayEntry.monthKey (d : DayEntry) : String := strTake d.date 7

/-- The monthly accumulation step (lines 644-649). -/
def upsertMonth (groups : List (String × MonthEntry)) (d : DayEntry) :
    List (String × MonthEntry) :=
  upsertA groups d.monthKey
    (fun g => { month := d.monthKey, totalCost := g.totalCost + d.totalCost
                totalSessions := g.totalSessions + d.totalSessions })
    { month := "", totalCost := 0, totalSessions := 0 }

/-- The `monthly_groups` dict (lines 638-649). -/
def monthlyGroups (daily_data : List DayEntry) : List (String × MonthEntry) :=
  daily_data.foldl upsertMonth []

/-- `process_monthly_data` (lines 636-655): aggregate the daily data by
month, sort ascending by month (stable), keep the last `limit or 10`
months. -/
def process_monthly_data (daily_data : List DayEntry) (limit : Option Nat) :
    List MonthEntry :=
  let result := ((monthlyGroups daily_data).map Prod.snd).insertionSort
    (fun a b => ¬ strLt b.month a.month)
  pySliceLast (pyOr limit 10) result

/-!
The live-monitor side, from src/build/lib/claude_usage.py.
-/

/-- The minute bucket of an event timestamp: `strftime('%Y-%m-%d %H:%M')`
followed by `strptime` (lines 1009 and 1058-1059) truncates to the minute;
lexicographic order on those strings is the numeric order of the minute
numbers, so the bucket is encoded as minutes since the epoch. -/
def minuteKey (t : ℚ) : ℤ := ⌊t / 60⌋

/-- `defaultdict(int)` accumulation `tokens_by_minute[minute_key] += tokens`
(line 1010). -/
def upsertMinute (buckets : List (ℤ × ℕ)) (k : ℤ) (tokens : ℕ) : List (ℤ × ℕ) :=
  upsertA buckets k (fun v => v + tokens) 0

/-- The `tokens_by_minute` map built from the window's timestamped events,
given as (timestamp, token count) pairs (lines 1007-1010). -/
def tokens_by_minute (events : List (ℚ × ℕ)) : List (ℤ × ℕ) :=
  events.foldl (fun acc ev => upsertMinute acc (minuteKey ev.1) ev.2) []

/-- The token burn rate of one session (lines 1049-1076): with at least two
occupied minute buckets, the total tokens divided by the conversation span
`(last bucket - first bucket) + 1` (the `+ 1` makes the span inclusive of
both endpoint minutes); with one bucket, that bucket's tokens; with none,
0. -/
def realBurnRateTokens (buckets : List (ℤ × ℕ)) : ℚ :=
  if buckets.length ≥ 1 then
    let recent_minutes := (buckets.map Prod.fst).insertionSort (fun a b => a ≤ b)
    let recent_tokens : ℕ := (buckets.map Prod.snd).sum
    if recent_minutes.length ≥ 2 then
      let actual_duration_minutes : ℚ :=
        ((recent_minutes.getLastD 0 - recent_minutes.headD 0 : ℤ) : ℚ) + 1
      (recent_tokens : ℚ) / actual_duration_minutes
    else (recent_tokens : ℚ)
  else 0

/-- The token counts of the synthesized active-session block
(src/build/lib/claude_usage.py lines 1174-1179): a rough 50/50 split of the
aggregated total by integer division, with both cache categories 0. -/
structure BlockTokenCounts where
  inputTokens : Nat
  outputTokens : Nat
  cacheCreationInputTokens : Nat
  cacheReadInputTokens : Nat
deriving Repr, DecidableEq

/-- The `tokenCounts` dict of the synthetic block (lines 1175-1178). -/
def synthetic_block_token_counts (total_tokens : Nat) : BlockTokenCounts :=
  { inputTokens := total_tokens / 2
    outputTokens := total_tokens / 2
    cacheCreationInputTokens := 0
    cacheReadInputTokens := 0 }

/-- Sum of the four reported categories of a synthetic block. -/
def BlockTokenCounts.total (c : BlockTokenCounts) : Nat :=
  c.inputTokens + c.outputTokens + c.cacheCreationInputTokens + c.cacheReadInputTokens

/-! Association-list lemmas shared by the claim theorems below. -/

section AssocLemmas

variable {κ α : Type} [BEq κ]

/-- The key-lookup predicate of an association list. -/
def keyIs (k : κ) : κ × α → Bool := fun p => p.1 == k

lemma lookupA_def (l : List (κ × α)) (k : κ) :
    lookupA l k = (l.find? (keyIs k)).map Prod.snd := rfl

lemma keyIs_of_beq {k : κ} {p : κ × α} (h : (p.1 == k) = true) : keyIs k p = true := h

lemma find?_map_keyPreserve (l : List (κ × α)) (g : κ × α → κ × α)
    (hg : ∀ p, (g p).1 = p.1) (k : κ) :
    (l.map g).find? (keyIs k) = (l.find? (keyIs k)).map g := by
  induction l with
  | nil => rfl
  | cons a t ih =>
    by_cases h : keyIs k a = true
    · rw [List.map_cons, List.find?_cons_of_pos _ (show keyIs k (g a) = true by
        unfold keyIs at h ⊢; rw [hg a]; exact h),
        List.find?_cons_of_pos _ h]
      rfl
    · rw [List.map_cons, List.find?_cons_of_neg _ (show ¬ keyIs k (g a) = true by
        unfold keyIs at h ⊢; rw [hg a]; exact h),
        List.find?_cons_of_neg _ h, ih]

lemma lookupA_eq_none (l : List (κ × α)) (k : κ)
    (hany : ¬ l.any (keyIs k) = true) : lookupA l k = none := by
  rw [lookupA_def, List.find?_eq_none.mpr]
  · rfl
  · intro x hx hpx
    exact hany (List.any_eq_true.mpr ⟨x, hx, hpx⟩)

lemma upsertA_def (l : List (κ × α)) (k : κ) (f : α → α) (init : α) :
    upsertA l k f init =
      if l.any (keyIs k) then
        l.map (fun p => if p.1 == k then (p.1, f p.2) else p)
      else l ++ [(k, f init)] := rfl

lemma updFun_keyPreserve (k : κ) (f : α → α) :
    ∀ p : κ × α, ((fun p : κ × α => if p.1 == k then (p.1, f p.2) else p) p).1 = p.1 := by
  intro p
  by_cases hp : (p.1 == k) = true <;> simp [hp]

variable [LawfulBEq κ]

lemma lookupA_upsertA_self (l : List (κ × α)) (k : κ) (f : α → α) (init : α) :
    lookupA (upsertA l k f init) k = some (f ((lookupA l k).getD init)) := by
  rw [upsertA_def]
  by_cases hany : l.any (keyIs k) = true
  · rw [if_pos hany]
    obtain ⟨y, hy⟩ : ∃ y, l.find? (keyIs k) = some y :=
      Option.isSome_iff_exists.mp (List.find?_isSome.mpr (List.any_eq_true.mp hany))
    have hyk : keyIs k y = true := List.find?_some hy
    rw [lookupA_def, lookupA_def, find?_map_keyPreserve _ _ (updFun_keyPreserve k f), hy]
    unfold keyIs at hyk
    simp [hyk]
  · rw [if_neg hany]
    have hnone : l.find? (keyIs k) = none := by
      rw [List.find?_eq_none]
      intro x hx hpx
      exact hany (List.any_eq_true.mpr ⟨x, hx, hpx⟩)
    rw [lookupA_def, List.find?_append, hnone, lookupA_eq_none l k hany]
    simp [List.find?, keyIs]

lemma lookupA_upsertA_ne (l : List (κ × α)) (k q : κ) (f : α → α) (init : α)
    (hne : q ≠ k) : lookupA (upsertA l k f init) q = lookupA l q := by
  rw [upsertA_def]
  by_cases hany : l.any (keyIs k) = true
  · rw [if_pos hany, lookupA_def, lookupA_def,
      find?_map_keyPreserve _ _ (updFun_keyPreserve k f)]
    cases hy : l.find? (keyIs (α := α) q) with
    | none => rfl
    | some y =>
      have hyq : keyIs q y = true := List.find?_some hy
      have hyk : (y.1 == k) = false := by
        by_contra hb
        have h1 : y.1 = q := eq_of_beq hyq
        have h2 : y.1 = k := eq_of_beq (by simpa using hb)
        exact hne (h1 ▸ h2)
      simp [hyk]
  · rw [if_neg hany, lookupA_def, lookupA_def, List.find?_append]
    have hsing : List.find? (keyIs q) [(k, f init)] = none := by
      rw [List.find?_eq_none]
      intro x hx hpx
      rw [List.mem_singleton] at hx
      have : (k == q) = true := by rw [hx] at hpx; exact hpx
      exact hne (eq_of_beq this).symm
    rw [hsing]
    cases l.find? (keyIs (α := α) q) <;> rfl

lemma keysOf_upsertA (l : List (κ × α)) (k : κ) (f : α → α) (init : α) :
    keysOf (upsertA l k f init) =
      if l.any (keyIs k) then keysOf l else keysOf l ++ [k] := by
  rw [upsertA_def]
  unfold keysOf
  by_cases hany : l.any (keyIs k) = true
  · rw [if_pos hany, if_pos hany, List.map_map]
    exact List.map_congr_left (fun p _ => updFun_keyPreserve k f p)
  · rw [if_neg hany, if_neg hany, List.map_append]
    rfl

lemma any_key_eq_true_iff (l : List (κ × α)) (k : κ) :
    l.any (keyIs k) = true ↔ k ∈ keysOf l := by
  rw [List.any_eq_true]
  constructor
  · rintro ⟨x, hx, hpx⟩
    exact (eq_of_beq hpx) ▸ List.mem_map_of_mem Prod.fst hx
  · intro hk
    obtain ⟨p, hp, hpk⟩ := List.mem_map.mp hk
    exact ⟨p, hp, by simp [keyIs, hpk]⟩

lemma nodup_keys_upsertA (l : List (κ × α)) (k : κ) (f : α → α) (init : α)
    (h : (keysOf l).Nodup) : (keysOf (upsertA l k f init)).Nodup := by
  rw [keysOf_upsertA]
  by_cases hany : l.any (keyIs k) = true
  · rwa [if_pos hany]
  · rw [if_neg hany, List.nodup_append]
    refine ⟨h, List.nodup_singleton k, ?_⟩
    intro a ha ha'
    rw [List.mem_singleton] at ha'
    exact hany (any_key_eq_true_iff l k |>.mpr (ha' ▸ ha))

lemma lookupA_eq_some_of_mem (l : List (κ × α)) (hnd : (keysOf l).Nodup)
    (k : κ) (v : α) (hm : (k, v) ∈ l) : lookupA l k = some v := by
  induction l with
  | nil => cases hm
  | cons a t ih =>
    rcases List.mem_cons.mp hm with heq | hm'
    · subst heq
      rw [lookupA_def, List.find?_cons_of_pos _ (show keyIs k ((k, v) : κ × α) = true by
        simp [keyIs])]
      rfl
    · have hnd' : (keysOf t).Nodup := (List.nodup_cons.mp (by
        have : keysOf (a :: t) = a.1 :: keysOf t := rfl
        rwa [this] at hnd)).2
      have hka : ¬ keyIs k a = true := by
        intro hb
        have hak : a.1 = k := eq_of_beq hb
        have hkt : k ∈ keysOf t := List.mem_map_of_mem Prod.fst hm'
        have hnc := List.nodup_cons.mp (show (a.1 :: keysOf t).Nodup from hnd)
        exact hnc.1 (hak ▸ hkt)
      rw [lookupA_def, List.find?_cons_of_neg _ hka]
      exact ih hnd' hm'

lemma lookupA_foldl_upsertA {β : Type} (key : β → κ) (step : β → α → α) (init : α)
    (l : List β) :
    ∀ (acc : List (κ × α)) (k : κ),
      lookupA (l.foldl (fun a x => upsertA a (key x) (step x) init) acc) k =
        match lookupA acc k with
        | some v => some ((l.filter (fun x => key x == k)).foldl (fun a x => step x a) v)
        | none =>
          if l.any (fun x => key x == k) then
            some ((l.filter (fun x => key x == k)).foldl (fun a x => step x a) init)
          else none := by
  induction l with
  | nil =>
    intro acc k
    cases h : lookupA acc k <;> simp [h]
  | cons x t ih =>
    intro acc k
    rw [List.foldl_cons, ih]
    by_cases hx : (key x == k) = true
    · have hxk : key x = k := eq_of_beq hx
      rw [hxk, lookupA_upsertA_self]
      cases h : lookupA acc k <;>
        simp [List.filter_cons, List.any_cons, hx, h]
    · have hx' : (key x == k) = false := eq_false_of_ne_true hx
      have hne : k ≠ key x := fun he => hx (by rw [he]; exact beq_self_eq_true (key x))
      rw [lookupA_upsertA_ne _ _ _ _ _ hne]
      cases h : lookupA acc k with
      | some v => simp [List.filter_cons, List.any_cons, hx', h]
      | none =>
        simp only [h, List.filter_cons, List.any_cons]
        rw [hx', Bool.false_or]
        simp

lemma lookupA_filter_value {v : α} (ts : List (κ × α)) (k : κ) (q : α → Bool)
    (hl : lookupA ts k = some v) (hq : q v = true) :
    lookupA (ts.filter (fun p => q p.2)) k = some v := by
  induction ts with
  | nil => simp [lookupA, List.find?] at hl
  | cons a t ih =>
    by_cases hk : keyIs k a = true
    · have hv : a.2 = v := by
        rw [lookupA_def, List.find?_cons_of_pos _ hk] at hl
        exact Option.some.inj hl
      have hqa : q a.2 = true := hv ▸ hq
      rw [List.filter_cons, if_pos hqa, lookupA_def, List.find?_cons_of_pos _ hk, ← hv]
      rfl
    · rw [lookupA_def, List.find?_cons_of_neg _ hk] at hl
      rw [List.filter_cons]
      by_cases hqa : q a.2 = true
      · rw [if_pos hqa, lookupA_def, List.find?_cons_of_neg _ hk]
        exact ih hl
      · rw [if_neg hqa]
        exact ih hl

lemma keysOf_foldl_upsert_mem {β : Type} (key : β → κ) (step : β → α → α) (init : α)
    (l : List β) :
    ∀ (acc : List (κ × α)) (k : κ),
      k ∈ keysOf (l.foldl (fun a x => upsertA a (key x) (step x) init) acc) ↔
        k ∈ keysOf acc ∨ ∃ x ∈ l, key x = k := by
  induction l with
  | nil => intro acc k; simp
  | cons x t ih =>
    intro acc k
    rw [List.foldl_cons, ih]
    constructor
    · rintro (hk | hx)
      · rw [keysOf_upsertA] at hk
        by_cases hany : acc.any (keyIs (key x)) = true
        · rw [if_pos hany] at hk
          exact Or.inl hk
        · rw [if_neg hany] at hk
          rcases List.mem_append.mp hk with hk' | hk'
          · exact Or.inl hk'
          · exact Or.inr ⟨x, List.mem_cons_self x t, (List.mem_singleton.mp hk').symm⟩
      · obtain ⟨y, hy, hyk⟩ := hx
        exact Or.inr ⟨y, List.mem_cons_of_mem x hy, hyk⟩
    · rintro (hk | ⟨y, hy, hyk⟩)
      · left
        rw [keysOf_upsertA]
        by_cases hany : acc.any (keyIs (key x)) = true
        · rwa [if_pos hany]
        · rw [if_neg hany]
          exact List.mem_append_left _ hk
      · rcases List.mem_cons.mp hy with heq | hy'
        · have hkx : key x = k := by rw [← heq]; exact hyk
          left
          rw [keysOf_upsertA]
          by_cases hany : acc.any (keyIs (key x)) = true
          · rw [if_pos hany]
            exact hkx ▸ (any_key_eq_true_iff acc (key x)).mp hany
          · rw [if_neg hany]
            exact List.mem_append_right _ (List.mem_singleton.mpr hkx.symm)
        · exact Or.inr ⟨y, hy', hyk⟩

lemma nodup_keys_foldl_upsert {β : Type} (key : β → κ) (step : β → α → α) (init : α)
    (l : List β) :
    ∀ (acc : List (κ × α)), (keysOf acc).Nodup →
      (keysOf (l.foldl (fun a x => upsertA a (key x) (step x) init) acc)).Nodup := by
  induction l with
  | nil => intro acc h; exact h
  | cons x t ih =>
    intro acc h
    rw [List.foldl_cons]
    exact ih _ (nodup_keys_upsertA _ _ _ _ h)

end AssocLemmas

lemma map_snd_update_id {κ α : Type} [BEq κ] (l : List (κ × α)) (k : κ) (f : α → α)
    (h : ¬ l.any (keyIs k) = true) :
    l.map (fun p => if p.1 == k then (p.1, f p.2) else p) = l := by
  have hall : ∀ p ∈ l, ¬ keyIs k p = true := by
    intro p hp hpk
    exact h (List.any_eq_true.mpr ⟨p, hp, hpk⟩)
  rw [show l.map (fun p => if p.1 == k then (p.1, f p.2) else p) = l.map id from
    List.map_congr_left (fun p hp => by
      have := hall p hp
      unfold keyIs at this
      simp [eq_false_of_ne_true this])]
  exact List.map_id l

lemma sum_snd_upsertA_add {κ : Type} [BEq κ] [LawfulBEq κ] (l : List (κ × ℕ)) (k : κ)
    (n : ℕ) (hnd : (keysOf l).Nodup) :
    ((upsertA l k (fun v => v + n) 0).map Prod.snd).sum = (l.map Prod.snd).sum + n := by
  induction l with
  | nil => simp [upsertA]
  | cons a t ih =>
    have hndt : (keysOf t).Nodup := (List.nodup_cons.mp hnd).2
    have hhead : a.1 ∉ keysOf t := (List.nodup_cons.mp hnd).1
    by_cases hk : (a.1 == k) = true
    · have hak : a.1 = k := eq_of_beq hk
      have hanyc : (a :: t).any (keyIs k) = true := by
        rw [List.any_cons]
        simp [keyIs, hk]
      have htany : ¬ t.any (keyIs k) = true := by
        intro hb
        exact hhead (hak ▸ (any_key_eq_true_iff t k).mp hb)
      rw [upsertA_def, if_pos hanyc, List.map_cons, if_pos hk,
        map_snd_update_id t k (fun v => v + n) htany]
      simp only [List.map_cons, List.sum_cons]
      omega
    · by_cases htany : t.any (keyIs k) = true
      · have hanyc : (a :: t).any (keyIs k) = true := by
          rw [List.any_cons, Bool.or_eq_true]
          exact Or.inr htany
        have hupd : t.map (fun p => if p.1 == k then (p.1, p.2 + n) else p) =
            upsertA t k (fun v => v + n) 0 := by
          rw [upsertA_def, if_pos htany]
        rw [upsertA_def, if_pos hanyc, List.map_cons, if_neg hk, hupd]
        simp only [List.map_cons, List.sum_cons]
        rw [ih hndt]
        omega
      · have hanyc : ¬ (a :: t).any (keyIs k) = true := by
          rw [List.any_cons, Bool.or_eq_true]
          rintro (hb | hb)
          · exact hk hb
          · exact htany hb
        rw [upsertA_def, if_neg hanyc]
        simp only [List.map_append, List.sum_append, List.map_cons, List.sum_cons,
          List.map_nil, List.sum_nil]
        omega

lemma sum_snd_tokens_by_minute_fold (evs : List (ℚ × ℕ)) :
    ∀ (acc : List (ℤ × ℕ)), (keysOf acc).Nodup →
      (((evs.foldl (fun a ev => upsertMinute a (minuteKey ev.1) ev.2) acc)).map
          Prod.snd).sum = (acc.map Prod.snd).sum + (evs.map Prod.snd).sum := by
  induction evs with
  | nil => intro acc _; simp
  | cons ev t ih =>
    intro acc hnd
    rw [List.foldl_cons]
    have h1 := ih (upsertMinute acc (minuteKey ev.1) ev.2)
      (nodup_keys_upsertA _ _ _ _ hnd)
    rw [h1]
    unfold upsertMinute
    rw [sum_snd_upsertA_add _ _ _ hnd]
    simp [List.sum_cons]
    omega

lemma sorted_headD_le (l : List ℤ) (hs : l.Sorted (fun a b : ℤ => a ≤ b)) (d : ℤ) :
    ∀ x ∈ l, l.headD d ≤ x := by
  cases l with
  | nil => intro x hx; cases hx
  | cons a t =>
    intro x hx
    rcases List.mem_cons.mp hx with rfl | hx'
    · exact le_refl x
    · exact (List.sorted_cons.mp hs).1 x hx'

lemma sorted_le_getLastD (l : List ℤ) (hs : l.Sorted (fun a b : ℤ => a ≤ b)) (d : ℤ) :
    ∀ x ∈ l, x ≤ l.getLastD d := by
  induction l generalizing d with
  | nil => intro x hx; cases hx
  | cons a t ih =>
    intro x hx
    rw [List.getLastD_cons]
    have hst : t.Sorted (fun a b : ℤ => a ≤ b) := (List.sorted_cons.mp hs).2
    rcases List.mem_cons.mp hx with rfl | hx'
    · cases t with
      | nil => simp [List.getLastD]
      | cons b t' =>
        have h1 : x ≤ b := (List.sorted_cons.mp hs).1 b (List.mem_cons_self b t')
        have h2 : b ≤ (b :: t').getLastD x := ih hst x b (List.mem_cons_self b t')
        exact le_trans h1 h2
    · exact ih hst a x hx'

/-- A price table under which the example event's tokens cost 7.0: 1000
input tokens at a rate of 7/1000 USD per token. -/
def examplePricing : PricingData :=
  [("claude-sonnet-4-20250514", ⟨some (7/1000), none, none, none⟩)]

/-- The example event's usage: 1000 input tokens. -/
def exampleUsage : Usage := ⟨1000, 0, 0, 0⟩

/-- The configuration used by the concrete dedup runs: command `monthly`
(timestamps are not re-parsed for activity dates there), no limit, `auto`
cost mode, empty price table. -/
def demoCfg : Config := ⟨.monthly, none, .auto, []⟩

/-- A usage event carrying 10 input tokens, a declared cost of 1, and the
fingerprint `msg:req`, at the given timestamp. -/
def demoEvent (ts : TsField) : Entry :=
  ⟨ts, some "msg", some "req", some ⟨10, 0, 0, 0⟩, some 1, some "claude-model"⟩

/-- One session file with two same-fingerprint events 1 hour apart. -/
def file_events_1h_apart : FileData :=
  ⟨"sess.jsonl", 0, "-proj-demo", [demoEvent (.parsed 0), demoEvent (.parsed 3600)]⟩

/-- One session file with two same-fingerprint events 30 hours apart. -/
def file_events_30h_apart : FileData :=
  ⟨"sess.jsonl", 0, "-proj-demo", [demoEvent (.parsed 0), demoEvent (.parsed (30 * 3600))]⟩

/-- One session file with two same-fingerprint events whose timestamps are
present but unparsable. -/
def file_events_no_ts : FileData :=
  ⟨"sess.jsonl", 0, "-proj-demo", [demoEvent .unparsable, demoEvent .unparsable]⟩

section RatEval

/-!
Concrete evaluations.  The four core `Rat` operations are shipped
`@[irreducible]`, which blocks `decide` on closed rational computations; for
this section only they are re-marked semireducible (an elaboration-level
setting — kernel checking is unchanged).  The attribute stays scoped to this
section because on open terms it makes other tactics unfold `Rat`
internals.
-/

attribute [local semireducible] Rat.add Rat.mul Rat.sub Rat.inv

lemma eval_display_example :
    calculate_entry_cost .display examplePricing (some 5) exampleUsage
      (some "claude-sonnet-4-20250514") = 5 := by decide

lemma eval_calculate_example :
    calculate_entry_cost .calculate examplePricing (some 5) exampleUsage
      (some "claude-sonnet-4-20250514") = 7 := by decide

lemma eval_auto_example :
    calculate_entry_cost .auto examplePricing (some 5) exampleUsage
      (some "claude-sonnet-4-20250514") = 5 := by decide

lemma eval_run_1h :
    (aggregate_corpus demoCfg [file_events_1h_apart]).map SessionOut.inputTokens
      = [10] := by decide

lemma eval_run_30h :
    (aggregate_corpus demoCfg [file_events_30h_apart]).map SessionOut.inputTokens
      = [20] := by decide

lemma eval_run_no_ts :
    (aggregate_corpus demoCfg [file_events_no_ts]).map SessionOut.inputTokens
      = [10] := by decide

lemma eval_example_lookup :
    lookupA examplePricing "claude-sonnet-4-20250514" =
      some ⟨some (7/1000), none, none, none⟩ := by decide

lemma eval_example_sum :
    (exampleUsage.input_tokens : ℚ) * (Option.getD (some ((7:ℚ)/1000)) 0) +
        exampleUsage.output_tokens * (Option.getD (none : Option ℚ) 0) +
        exampleUsage.cache_creation_input_tokens * (Option.getD (none : Option ℚ) 0) +
        exampleUsage.cache_read_input_tokens * (Option.getD (none : Option ℚ) 0) = 7 := by
  decide

end RatEval

/-- Claim C4: in `display` mode the returned cost is the declared `costUSD`
verbatim (0 when absent or null) and never depends on the price table, the
tokens or the model; in `auto` mode a present non-null `costUSD` is returned
as is and otherwise the `calculate`-mode cost is returned; an event with
`costUSD = 5.0` whose tokens compute to `7.0` yields 5.0 / 7.0 / 5.0 under
display / calculate / auto. -/
theorem claim_C4_cost_modes :
    (∀ (P : PricingData) (c : Option ℚ) (u : Usage) (m : Option String),
        calculate_entry_cost .display P c u m = c.getD 0) ∧
    (∀ (P Q : PricingData) (c : Option ℚ) (u v : Usage) (m r : Option String),
        calculate_entry_cost .display P c u m = calculate_entry_cost .display Q c v r) ∧
    (∀ (P : PricingData) (x : ℚ) (u : Usage) (m : Option String),
        calculate_entry_cost .auto P (some x) u m = x) ∧
    (∀ (P : PricingData) (u : Usage) (m : Option String),
        calculate_entry_cost .auto P none u m = calculate_entry_cost .calculate P none u m) ∧
    calculate_entry_cost .display examplePricing (some 5) exampleUsage
      (some "claude-sonnet-4-20250514") = 5 ∧
    calculate_entry_cost .calculate examplePricing (some 5) exampleUsage
      (some "claude-sonnet-4-20250514") = 7 ∧
    calculate_entry_cost .auto examplePricing (some 5) exampleUsage
      (some "claude-sonnet-4-20250514") = 5 := by
  refine ⟨?_, fun _ _ _ _ _ _ _ => rfl, fun _ _ _ _ => rfl, fun _ _ _ => rfl,
    eval_display_example, eval_calculate_example, eval_auto_example⟩
  intro P c u m
  cases c with
  | none => rfl
  | some x =>
    show (if x = 0 then 0 else x) = x
    by_cases hx : x = 0
    · rw [if_pos hx, hx]
    · rw [if_neg hx]

lemma truthy_category_step (c : ℚ) (r : Option ℚ) (t : ℕ) :
    (if truthyQ r && truthyN t then c + t * r.getD 0 else c) = c + t * r.getD 0 := by
  rcases r with _ | x
  · simp [truthyQ]
  · by_cases hx : x = 0
    · subst hx
      simp [truthyQ]
    · by_cases ht : t = 0
      · subst ht
        simp [truthyN]
      · simp [truthyQ, truthyN, hx, ht]

/-- Claim C6: the `calculate` mode ignores any declared cost and returns the
sum over the four token categories of `tokenCount * pricePerToken` for the
event's model; a model absent from the price table yields exactly 0, and a
category whose rate is missing contributes exactly 0 to the sum. -/
theorem claim_C6_calculate_mode :
    (∀ (P : PricingData) (u : Usage) (m : String),
        lookupA P m = none → calculate_cost_from_tokens P u m = 0) ∧
    (∀ (P : PricingData) (u : Usage) (m : String) (pr : ModelPricing),
        lookupA P m = some pr →
          calculate_cost_from_tokens P u m =
            u.input_tokens * pr.input_cost_per_token.getD 0 +
            u.output_tokens * pr.output_cost_per_token.getD 0 +
            u.cache_creation_input_tokens * pr.cache_creation_input_token_cost.getD 0 +
            u.cache_read_input_tokens * pr.cache_read_input_token_cost.getD 0) ∧
    (∀ (P : PricingData) (c : Option ℚ) (u : Usage) (m : String),
        calculate_entry_cost .calculate P c u (some m) = calculate_cost_from_tokens P u m) := by
  refine ⟨?_, ?_, fun _ _ _ _ => rfl⟩
  · intro P u m h
    unfold calculate_cost_from_tokens
    rw [h]
  · intro P u m pr h
    unfold calculate_cost_from_tokens
    rw [h]
    simp only [truthy_category_step]
    rw [zero_add]

/-- Witness for C6 at concrete inputs: the empty price table yields cost 0,
and the example table yields the four-category sum, here 7. -/
theorem claim_C6_witness :
    lookupA ([] : PricingData) "other-model" = none ∧
    calculate_cost_from_tokens [] exampleUsage "other-model" = 0 ∧
    lookupA examplePricing "claude-sonnet-4-20250514" =
      some ⟨some (7/1000), none, none, none⟩ ∧
    calculate_cost_from_tokens examplePricing exampleUsage "claude-sonnet-4-20250514" =
      exampleUsage.input_tokens * (Option.getD (some ((7:ℚ)/1000)) 0) +
        exampleUsage.output_tokens * (Option.getD (none : Option ℚ) 0) +
        exampleUsage.cache_creation_input_tokens * (Option.getD (none : Option ℚ) 0) +
        exampleUsage.cache_read_input_tokens * (Option.getD (none : Option ℚ) 0) :=
  ⟨rfl, claim_C6_calculate_mode.1 [] exampleUsage "other-model" rfl,
    eval_example_lookup,
    claim_C6_calculate_mode.2.1 examplePricing exampleUsage "claude-sonnet-4-20250514"
      ⟨some (7/1000), none, none, none⟩ eval_example_lookup⟩

/-- Claim C9: the synthesized active-window block splits the aggregated
total `T > 0` as `inputTokens = outputTokens = T / 2` (integer division)
with both cache categories 0, so the four categories sum to `T - T % 2`,
one token short of the true total whenever `T` is odd. -/
theorem claim_C9_synthetic_split (T : Nat) (hT : 0 < T) :
    synthetic_block_token_counts T =
      { inputTokens := T / 2, outputTokens := T / 2,
        cacheCreationInputTokens := 0, cacheReadInputTokens := 0 } ∧
    (synthetic_block_token_counts T).total = T - T % 2 ∧
    (T % 2 = 1 → (synthetic_block_token_counts T).total = T - 1) := by
  refine ⟨rfl, ?_, ?_⟩
  · simp only [synthetic_block_token_counts, BlockTokenCounts.total]
    omega
  · intro hodd
    simp only [synthetic_block_token_counts, BlockTokenCounts.total]
    omega

/-- Witness for C9 at `T = 7`. -/
theorem claim_C9_witness :
    0 < 7 ∧
    (synthetic_block_token_counts 7 =
        { inputTokens := 7 / 2, outputTokens := 7 / 2,
          cacheCreationInputTokens := 0, cacheReadInputTokens := 0 } ∧
      (synthetic_block_token_counts 7).total = 7 - 7 % 2 ∧
      (7 % 2 = 1 → (synthetic_block_token_counts 7).total = 7 - 1)) :=
  ⟨by decide, claim_C9_synthetic_split 7 (by decide)⟩

lemma lookupTS_setTS (ts : List (String × ℚ)) (h : String) (t : ℚ) :
    lookupTS (setTS ts h t) h = some t := by
  unfold lookupTS setTS
  rw [lookupA_upsertA_self]

lemma skip_check_none (st : DedupState) (ct : Option ℚ) :
    skip_duplicate_check st none ct = false := rfl

lemma skip_check_some (st : DedupState) (h : String) (ct : Option ℚ) :
    skip_duplicate_check st (some h) ct =
      if h ∈ st.global_processed_hashes then
        match lookupTS st.hash_timestamps h, ct with
        | some t0, some t => decide (|t - t0| / 3600 ≤ dedup_window_hours)
        | _, _ => true
      else false := rfl

lemma dedup_cleanup_some (st : DedupState) (t : ℚ) :
    dedup_cleanup st (some t) =
      if st.hash_timestamps.length > dedup_cleanup_threshold then
        { global_processed_hashes := st.global_processed_hashes.filter
            (fun h => !(((st.hash_timestamps.filter
              (fun p => decide (p.2 < t - dedup_window_hours * 2 * 3600))).map
                Prod.fst).contains h))
          hash_timestamps := st.hash_timestamps.filter
            (fun p => !(decide (p.2 < t - dedup_window_hours * 2 * 3600))) }
      else st := rfl

/-- Claim C1: for a seen fingerprint with both the stored firstSeen and the
current timestamp present, the event is admitted (not skipped) iff the
absolute time difference exceeds the 24-hour window, and such an aged-out
admission resets the stored firstSeen to the new timestamp; concretely, of
two same-fingerprint events carrying 10 input tokens each, 1 hour apart only
the first is counted (10 tokens) while 30 hours apart both are (20 tokens). -/
theorem claim_C1_dedup_window :
    (∀ (st : DedupState) (h : String) (t0 t : ℚ),
        h ∈ st.global_processed_hashes →
        lookupTS st.hash_timestamps h = some t0 →
        (skip_duplicate_check st (some h) (some t) = false ↔
          |t - t0| / 3600 > dedup_window_hours) ∧
        (skip_duplicate_check st (some h) (some t) = false →
          lookupTS (dedup_mark_cleanup st (some h) (some t)).hash_timestamps h = some t)) ∧
    (aggregate_corpus demoCfg [file_events_1h_apart]).map SessionOut.inputTokens = [10] ∧
    (aggregate_corpus demoCfg [file_events_30h_apart]).map SessionOut.inputTokens = [20] := by
  refine ⟨?_, eval_run_1h, eval_run_30h⟩
  intro st h t0 t hmem hlook
  have hval : skip_duplicate_check st (some h) (some t) =
      decide (|t - t0| / 3600 ≤ dedup_window_hours) := by
    rw [skip_check_some, if_pos hmem, hlook]
  constructor
  · rw [hval, decide_eq_false_iff_not, not_le]
  · intro _
    have hmarked : (mark_processed st (some h) (some t)).hash_timestamps =
        setTS st.hash_timestamps h t := rfl
    have hl2 : lookupTS (mark_processed st (some h) (some t)).hash_timestamps h = some t := by
      rw [hmarked]
      exact lookupTS_setTS _ _ _
    show lookupTS (dedup_cleanup (mark_processed st (some h) (some t))
        (some t)).hash_timestamps h = some t
    rw [dedup_cleanup_some]
    by_cases hsz :
        (mark_processed st (some h) (some t)).hash_timestamps.length >
          dedup_cleanup_threshold
    · rw [if_pos hsz]
      exact lookupA_filter_value _ _
        (fun v => !(decide (v < t - dedup_window_hours * 2 * 3600))) hl2 (by
        rw [Bool.not_eq_true', decide_eq_false_iff_not, not_lt]
        have : (0:ℚ) < dedup_window_hours * 2 * 3600 := by norm_num [dedup_window_hours]
        linarith)
    · rw [if_neg hsz]
      exact hl2

/-- Witness for C1's universally quantified part, at a state that has seen
fingerprint `msg:req` first at time 0, with a new occurrence 25 hours
later. -/
theorem claim_C1_witness :
    ("msg:req" ∈ (⟨["msg:req"], [("msg:req", 0)]⟩ : DedupState).global_processed_hashes) ∧
    lookupTS (⟨["msg:req"], [("msg:req", 0)]⟩ : DedupState).hash_timestamps "msg:req" =
      some 0 ∧
    ((skip_duplicate_check ⟨["msg:req"], [("msg:req", 0)]⟩ (some "msg:req")
        (some (25 * 3600)) = false ↔
        |(25 * 3600 : ℚ) - 0| / 3600 > dedup_window_hours) ∧
      (skip_duplicate_check ⟨["msg:req"], [("msg:req", 0)]⟩ (some "msg:req")
          (some (25 * 3600)) = false →
        lookupTS (dedup_mark_cleanup ⟨["msg:req"], [("msg:req", 0)]⟩ (some "msg:req")
            (some (25 * 3600))).hash_timestamps "msg:req" = some (25 * 3600))) :=
  ⟨by decide, by decide,
    claim_C1_dedup_window.1 ⟨["msg:req"], [("msg:req", 0)]⟩ "msg:req" 0 (25 * 3600)
      (by decide) (by decide)⟩

/-- Claim C5: an event without a fingerprint is always admitted; a repeat of
a seen fingerprint is rejected unconditionally when the current timestamp is
missing or when no firstSeen timestamp was recorded; concretely, of two
same-fingerprint events with unparsable timestamps (10 input tokens each)
only the first is counted. -/
theorem claim_C5_dedup_fallback :
    (∀ (st : DedupState) (ct : Option ℚ) (e : Entry),
        e.messageId = none ∨ e.requestId = none →
        skip_duplicate_check st (create_unique_hash e) ct = false) ∧
    (∀ (st : DedupState) (h : String) (ct : Option ℚ),
        h ∈ st.global_processed_hashes →
        lookupTS st.hash_timestamps h = none →
        skip_duplicate_check st (some h) ct = true) ∧
    (∀ (st : DedupState) (h : String),
        h ∈ st.global_processed_hashes →
        skip_duplicate_check st (some h) none = true) ∧
    (aggregate_corpus demoCfg [file_events_no_ts]).map SessionOut.inputTokens = [10] := by
  refine ⟨?_, ?_, ?_, eval_run_no_ts⟩
  · intro st ct e he
    have hnone : create_unique_hash e = none := by
      unfold create_unique_hash
      rcases he with he | he
      · rw [he]
      · rw [he]
        cases e.messageId <;> rfl
    rw [hnone]
    rfl
  · intro st h ct hmem hlook
    rw [skip_check_some, if_pos hmem, hlook]
  · intro st h hmem
    rw [skip_check_some, if_pos hmem]
    cases lookupTS st.hash_timestamps h <;> rfl

/-- Witness for C5: a fingerprint seen with no recorded firstSeen rejects a
new occurrence even with a timestamp, and an event with no requestId is
admitted against the same state. -/
theorem claim_C5_witness :
    ("msg:req" ∈ (⟨["msg:req"], []⟩ : DedupState).global_processed_hashes) ∧
    lookupTS (⟨["msg:req"], []⟩ : DedupState).hash_timestamps "msg:req" = none ∧
    skip_duplicate_check ⟨["msg:req"], []⟩ (some "msg:req") (some 5) = true ∧
    ((⟨.absent, some "msg", none, some ⟨1, 0, 0, 0⟩, none, none⟩ : Entry).messageId = none ∨
      (⟨.absent, some "msg", none, some ⟨1, 0, 0, 0⟩, none, none⟩ : Entry).requestId = none) ∧
    skip_duplicate_check ⟨["msg:req"], []⟩
      (create_unique_hash ⟨.absent, some "msg", none, some ⟨1, 0, 0, 0⟩, none, none⟩)
      (some 5) = false :=
  ⟨by decide, by decide,
    claim_C5_dedup_fallback.2.1 ⟨["msg:req"], []⟩ "msg:req" (some 5) (by decide) (by decide),
    by decide,
    claim_C5_dedup_fallback.1 ⟨["msg:req"], []⟩ (some 5)
      ⟨.absent, some "msg", none, some ⟨1, 0, 0, 0⟩, none, none⟩ (Or.inr (by decide))⟩

/-- Claim C7: when, after marking an admitted event bearing timestamp `t`,
more than `dedup_cleanup_threshold` fingerprints are tracked, the cleanup
drops exactly the entries whose firstSeen is strictly older than
`2 * dedupWindowHours` before `t` and keeps the rest. -/
theorem claim_C7_eviction (st : DedupState) (uh : Option String) (t : ℚ)
    (hsize : (mark_processed st uh (some t)).hash_timestamps.length >
      dedup_cleanup_threshold) :
    ∀ (h : String) (t0 : ℚ),
      (h, t0) ∈ (dedup_mark_cleanup st uh (some t)).hash_timestamps ↔
        ((h, t0) ∈ (mark_processed st uh (some t)).hash_timestamps ∧
          ¬ t0 < t - 2 * dedup_window_hours * 3600) := by
  intro h t0
  show (h, t0) ∈ (dedup_cleanup (mark_processed st uh (some t))
      (some t)).hash_timestamps ↔ _
  rw [dedup_cleanup_some, if_pos hsize]
  show (h, t0) ∈ (mark_processed st uh (some t)).hash_timestamps.filter
      (fun p => !(decide (p.2 < t - dedup_window_hours * 2 * 3600))) ↔ _
  rw [List.mem_filter]
  constructor
  · rintro ⟨hm, hb⟩
    refine ⟨hm, ?_⟩
    rw [Bool.not_eq_true', decide_eq_false_iff_not] at hb
    intro hlt
    exact hb (by linarith [hlt])
  · rintro ⟨hm, hb⟩
    refine ⟨hm, ?_⟩
    rw [Bool.not_eq_true', decide_eq_false_iff_not]
    intro hlt
    exact hb (by linarith [hlt])

/-- Witness for C7: a tracked store of 10001 fingerprints, processed at time
0; the entry first seen at -200000 seconds (older than the 172800-second
horizon) is characterized by the eviction condition. -/
theorem claim_C7_witness :
    (mark_processed ⟨[], ("old", -200000) :: List.replicate 10000 ("x", (0:ℚ))⟩ none
        (some 0)).hash_timestamps.length > dedup_cleanup_threshold ∧
    (("old", (-200000 : ℚ)) ∈
        (dedup_mark_cleanup ⟨[], ("old", -200000) :: List.replicate 10000 ("x", (0:ℚ))⟩
          none (some 0)).hash_timestamps ↔
      (("old", (-200000 : ℚ)) ∈
          (mark_processed ⟨[], ("old", -200000) :: List.replicate 10000 ("x", (0:ℚ))⟩
            none (some 0)).hash_timestamps ∧
        ¬ (-200000 : ℚ) < 0 - 2 * dedup_window_hours * 3600)) :=
  ⟨by
    show (("old", (-200000:ℚ)) :: List.replicate 10000 ("x", (0:ℚ))).length >
      dedup_cleanup_threshold
    rw [List.length_cons, List.length_replicate]
    norm_num [dedup_cleanup_threshold],
    claim_C7_eviction ⟨[], ("old", -200000) :: List.replicate 10000 ("x", (0:ℚ))⟩ none 0
      (by
        show (("old", (-200000:ℚ)) :: List.replicate 10000 ("x", (0:ℚ))).length >
          dedup_cleanup_threshold
        rw [List.length_cons, List.length_replicate]
        norm_num [dedup_cleanup_threshold]) "old" (-200000)⟩

/-- One session file whose only event has zero input and output tokens, a
declared cost of 0, and nonzero cache-creation (5) and cache-read (7)
tokens. -/
def file_cache_only : FileData :=
  ⟨"cache.jsonl", 0, "-proj-cache",
    [⟨.parsed 0, some "msg", some "req", some ⟨0, 0, 5, 7⟩, some 0, some "claude-model"⟩]⟩

section RatEvalB

attribute [local semireducible] Rat.add Rat.mul Rat.sub Rat.inv

lemma eval_cache_sessions :
    (processFilesLoop demoCfg GlobalState.init 0 [file_cache_only]).sessions.map
      (fun p => (p.2.cache_creation_tokens, p.2.cache_read_tokens)) = [(5, 7)] := by
  decide

lemma eval_cache_result :
    process_files_with_global_dedup demoCfg [file_cache_only] = [] := by decide

lemma eval_demo_mem :
    (⟨"-proj-demo", "demo", 10, 0, 0, 0, 1, "1970-01-01", ["claude-model"]⟩ : SessionOut) ∈
      process_files_with_global_dedup demoCfg [file_events_1h_apart] := by decide

end RatEvalB

lemma process_files_filter_eq (cfg : Config) (files : List FileData) :
    process_files_with_global_dedup cfg files =
      ((processFilesLoop cfg GlobalState.init 0 files).sessions.filter (fun p =>
          decide (¬ (p.2.total_cost = 0 ∧ p.2.input_tokens = 0 ∧
            p.2.output_tokens = 0)))).map (fun p => mkSessionOut p.1 p.2) := by
  unfold process_files_with_global_dedup convertSessions
  refine congrArg (List.map _) (List.filter_congr ?_)
  intro p _
  by_cases h1 : p.2.total_cost = 0 <;> by_cases h2 : p.2.input_tokens = 0 <;>
    by_cases h3 : p.2.output_tokens = 0 <;> simp [h1, h2, h3]

/-- Claim C10: the returned session list is exactly the accumulated sessions
whose totalCost, inputTokens and outputTokens are not all zero; in
particular every returned session violates the all-zero condition, and a
session whose only nonzero accumulated totals are cache tokens (here
cacheCreation 5, cacheRead 7) is dropped from the output. -/
theorem claim_C10_empty_filter :
    (∀ (cfg : Config) (files : List FileData),
        process_files_with_global_dedup cfg files =
          ((processFilesLoop cfg GlobalState.init 0 files).sessions.filter (fun p =>
              decide (¬ (p.2.total_cost = 0 ∧ p.2.input_tokens = 0 ∧
                p.2.output_tokens = 0)))).map (fun p => mkSessionOut p.1 p.2)) ∧
    (∀ (cfg : Config) (files : List FileData) (out : SessionOut),
        out ∈ process_files_with_global_dedup cfg files →
        ¬ (out.totalCost = 0 ∧ out.inputTokens = 0 ∧ out.outputTokens = 0)) ∧
    (processFilesLoop demoCfg GlobalState.init 0 [file_cache_only]).sessions.map
      (fun p => (p.2.cache_creation_tokens, p.2.cache_read_tokens)) = [(5, 7)] ∧
    process_files_with_global_dedup demoCfg [file_cache_only] = [] := by
  refine ⟨process_files_filter_eq, ?_, eval_cache_sessions, eval_cache_result⟩
  intro cfg files out hmem
  rw [process_files_filter_eq] at hmem
  obtain ⟨p, hp, hout⟩ := List.mem_map.mp hmem
  have hcond := (List.mem_filter.mp hp).2
  rw [decide_eq_true_iff] at hcond
  intro hzero
  apply hcond
  refine ⟨?_, ?_, ?_⟩
  · have : out.totalCost = p.2.total_cost := by rw [← hout]; rfl
    rw [← this]; exact hzero.1
  · have : out.inputTokens = p.2.input_tokens := by rw [← hout]; rfl
    rw [← this]; exact hzero.2.1
  · have : out.outputTokens = p.2.output_tokens := by rw [← hout]; rfl
    rw [← this]; exact hzero.2.2

/-- Witness for C10 at a corpus whose single session is kept: its output
record is in the result and is not all-zero. -/
theorem claim_C10_witness :
    ((⟨"-proj-demo", "demo", 10, 0, 0, 0, 1, "1970-01-01", ["claude-model"]⟩ : SessionOut) ∈
        process_files_with_global_dedup demoCfg [file_events_1h_apart]) ∧
    ¬ ((⟨"-proj-demo", "demo", 10, 0, 0, 0, 1, "1970-01-01",
          ["claude-model"]⟩ : SessionOut).totalCost = 0 ∧
        (⟨"-proj-demo", "demo", 10, 0, 0, 0, 1, "1970-01-01",
          ["claude-model"]⟩ : SessionOut).inputTokens = 0 ∧
        (⟨"-proj-demo", "demo", 10, 0, 0, 0, 1, "1970-01-01",
          ["claude-model"]⟩ : SessionOut).outputTokens = 0) :=
  ⟨eval_demo_mem,
    claim_C10_empty_filter.2.1 demoCfg [file_events_1h_apart]
      ⟨"-proj-demo", "demo", 10, 0, 0, 0, 1, "1970-01-01", ["claude-model"]⟩ eval_demo_mem⟩

lemma tokens_by_minute_eq (evs : List (ℚ × ℕ)) :
    tokens_by_minute evs =
      evs.foldl (fun a x => upsertA a (minuteKey x.1) (fun v => v + x.2) 0) [] := rfl

lemma mem_keys_tokens_by_minute (evs : List (ℚ × ℕ)) (k : ℤ) :
    k ∈ keysOf (tokens_by_minute evs) ↔ ∃ ev ∈ evs, minuteKey ev.1 = k := by
  rw [tokens_by_minute_eq, keysOf_foldl_upsert_mem]
  simp [keysOf]

lemma nodup_keys_tokens_by_minute (evs : List (ℚ × ℕ)) :
    (keysOf (tokens_by_minute evs)).Nodup := by
  rw [tokens_by_minute_eq]
  exact nodup_keys_foldl_upsert _ _ _ _ _ (by simp [keysOf])

lemma sum_tokens_by_minute (evs : List (ℚ × ℕ)) :
    ((tokens_by_minute evs).map Prod.snd).sum = (evs.map Prod.snd).sum := by
  have h := sum_snd_tokens_by_minute_fold evs [] (by simp [keysOf])
  simpa using h

lemma getLastD_mem (l : List ℤ) (hne : l ≠ []) (d : ℤ) : l.getLastD d ∈ l := by
  induction l generalizing d with
  | nil => exact absurd rfl hne
  | cons a t ih =>
    rw [List.getLastD_cons]
    cases t with
    | nil => exact List.mem_singleton.mpr rfl
    | cons b t' => exact List.mem_cons_of_mem a (ih (by simp) a)

lemma sorted_ends (l : List ℤ) (lo hi : ℤ)
    (hsorted : l.Sorted (fun a b : ℤ => a ≤ b))
    (hlo_mem : lo ∈ l) (hhi_mem : hi ∈ l)
    (hlo_bound : ∀ x ∈ l, lo ≤ x) (hhi_bound : ∀ x ∈ l, x ≤ hi) :
    l.headD 0 = lo ∧ l.getLastD 0 = hi := by
  have hne : l ≠ [] := List.ne_nil_of_mem hlo_mem
  have hhead_mem : l.headD 0 ∈ l := by
    cases l with
    | nil => exact absurd rfl hne
    | cons a t => exact List.mem_cons_self a t
  constructor
  · exact le_antisymm (sorted_headD_le l hsorted 0 lo hlo_mem) (hlo_bound _ hhead_mem)
  · exact le_antisymm (hhi_bound _ (getLastD_mem l hne 0))
      (sorted_le_getLastD l hsorted 0 hi hhi_mem)

lemma two_le_length_of_two_mem {l : List ℤ} {a b : ℤ} (ha : a ∈ l) (hb : b ∈ l)
    (hne : a ≠ b) : 2 ≤ l.length := by
  cases l with
  | nil => cases ha
  | cons x t =>
    cases t with
    | nil =>
      rw [List.mem_singleton] at ha hb
      exact absurd (ha.trans hb.symm) hne
    | cons y t' => simp [List.length_cons]

lemma realBurnRateTokens_def (buckets : List (ℤ × ℕ)) :
    realBurnRateTokens buckets =
      if buckets.length ≥ 1 then
        if ((buckets.map Prod.fst).insertionSort (fun a b => a ≤ b)).length ≥ 2 then
          ((buckets.map Prod.snd).sum : ℚ) /
            (((((buckets.map Prod.fst).insertionSort (fun a b => a ≤ b)).getLastD 0 -
              ((buckets.map Prod.fst).insertionSort (fun a b => a ≤ b)).headD 0 : ℤ) : ℚ) + 1)
        else ((buckets.map Prod.snd).sum : ℚ)
      else 0 := rfl

section RatEvalC

attribute [local semireducible] Rat.add Rat.mul Rat.sub Rat.inv

lemma eval_burn_example :
    realBurnRateTokens (tokens_by_minute [((0:ℚ), 100), ((300:ℚ), 400)]) = 250/3 := by
  decide

lemma eval_burn_ne : (250 : ℚ)/3 ≠ 500/5 := by decide

lemma eval_w2_lo_bound :
    ∀ ev ∈ [((0:ℚ), 100), ((300:ℚ), 400)], (0:ℤ) ≤ minuteKey ev.1 := by decide

lemma eval_w2_lo_mem :
    ∃ ev ∈ [((0:ℚ), 100), ((300:ℚ), 400)], minuteKey ev.1 = (0:ℤ) := by decide

lemma eval_w2_hi_bound :
    ∀ ev ∈ [((0:ℚ), 100), ((300:ℚ), 400)], minuteKey ev.1 ≤ (5:ℤ) := by decide

lemma eval_w2_hi_mem :
    ∃ ev ∈ [((0:ℚ), 100), ((300:ℚ), 400)], minuteKey ev.1 = (5:ℤ) := by decide

end RatEvalC

/-- Claim C2, counterexample: a session whose trailing window holds 100
tokens at t = 0 s and 400 tokens at t = 300 s (5 minutes later) gets burn
rate 500/6 = 250/3 ≈ 83.3 tokens per minute, not 500/5 = 100 as the claim
computes: the code divides by the inclusive minute span `(5 - 0) + 1`. -/
theorem claim_C2_counterexample :
    realBurnRateTokens (tokens_by_minute [((0:ℚ), 100), ((300:ℚ), 400)]) = 250/3 ∧
    realBurnRateTokens (tokens_by_minute [((0:ℚ), 100), ((300:ℚ), 400)]) ≠ 500/5 := by
  refine ⟨eval_burn_example, ?_⟩
  rw [eval_burn_example]
  exact eval_burn_ne

/-- Claim C2 as amended: for a session whose trailing-window events occupy
at least two distinct minute buckets, with `lo` and `hi` the minute buckets
of the earliest and latest events, the token burn rate equals
`totalTokensInWindow / (hi - lo + 1)` — the minute-bucket span counted
inclusively of both endpoints — so the example yields 500/6, not 500/5. -/
theorem claim_C2_amended (events : List (ℚ × ℕ)) (lo hi : ℤ)
    (hlo_bound : ∀ ev ∈ events, lo ≤ minuteKey ev.1)
    (hlo_mem : ∃ ev ∈ events, minuteKey ev.1 = lo)
    (hhi_bound : ∀ ev ∈ events, minuteKey ev.1 ≤ hi)
    (hhi_mem : ∃ ev ∈ events, minuteKey ev.1 = hi)
    (hne : lo ≠ hi) :
    realBurnRateTokens (tokens_by_minute events) =
      ((events.map Prod.snd).sum : ℚ) / (((hi - lo : ℤ) : ℚ) + 1) := by
  have hlo_k : lo ∈ keysOf (tokens_by_minute events) :=
    (mem_keys_tokens_by_minute events lo).mpr hlo_mem
  have hhi_k : hi ∈ keysOf (tokens_by_minute events) :=
    (mem_keys_tokens_by_minute events hi).mpr hhi_mem
  have hperm :
      ((keysOf (tokens_by_minute events)).insertionSort (fun a b : ℤ => a ≤ b)).Perm
        (keysOf (tokens_by_minute events)) := List.perm_insertionSort _ _
  have hsorted :
      ((keysOf (tokens_by_minute events)).insertionSort
        (fun a b : ℤ => a ≤ b)).Sorted (fun a b : ℤ => a ≤ b) :=
    List.sorted_insertionSort _ _
  have hlos : lo ∈ (keysOf (tokens_by_minute events)).insertionSort
      (fun a b : ℤ => a ≤ b) := hperm.mem_iff.mpr hlo_k
  have hhis : hi ∈ (keysOf (tokens_by_minute events)).insertionSort
      (fun a b : ℤ => a ≤ b) := hperm.mem_iff.mpr hhi_k
  have hbounds : ∀ x ∈ (keysOf (tokens_by_minute events)).insertionSort
      (fun a b : ℤ => a ≤ b), lo ≤ x ∧ x ≤ hi := by
    intro x hx
    have hxk : x ∈ keysOf (tokens_by_minute events) := hperm.mem_iff.mp hx
    obtain ⟨ev, hev, hevk⟩ := (mem_keys_tokens_by_minute events x).mp hxk
    exact ⟨hevk ▸ hlo_bound ev hev, hevk ▸ hhi_bound ev hev⟩
  obtain ⟨hhead, hlast⟩ := sorted_ends _ lo hi hsorted hlos hhis
    (fun x hx => (hbounds x hx).1) (fun x hx => (hbounds x hx).2)
  have hlen2 : 2 ≤ ((keysOf (tokens_by_minute events)).insertionSort
      (fun a b : ℤ => a ≤ b)).length := two_le_length_of_two_mem hlos hhis hne
  have hlen1 : 1 ≤ (tokens_by_minute events).length := by
    have h1 : 1 ≤ (keysOf (tokens_by_minute events)).length := by
      cases hk : keysOf (tokens_by_minute events) with
      | nil => rw [hk] at hlo_k; cases hlo_k
      | cons a t => simp
    unfold keysOf at h1
    rwa [List.length_map] at h1
  rw [realBurnRateTokens_def, if_pos hlen1]
  show (if ((keysOf (tokens_by_minute events)).insertionSort
      (fun a b : ℤ => a ≤ b)).length ≥ 2 then _ else _) = _
  rw [if_pos hlen2]
  rw [show ((tokens_by_minute events).map Prod.fst) = keysOf (tokens_by_minute events)
    from rfl] at *
  rw [hhead, hlast, sum_tokens_by_minute]

/-- Witness for C2's amended theorem at the example events: the rate is
500/6. -/
theorem claim_C2_amended_witness :
    (∀ ev ∈ [((0:ℚ), 100), ((300:ℚ), 400)], (0:ℤ) ≤ minuteKey ev.1) ∧
    (∃ ev ∈ [((0:ℚ), 100), ((300:ℚ), 400)], minuteKey ev.1 = (0:ℤ)) ∧
    (∀ ev ∈ [((0:ℚ), 100), ((300:ℚ), 400)], minuteKey ev.1 ≤ (5:ℤ)) ∧
    (∃ ev ∈ [((0:ℚ), 100), ((300:ℚ), 400)], minuteKey ev.1 = (5:ℤ)) ∧
    (0:ℤ) ≠ 5 ∧
    realBurnRateTokens (tokens_by_minute [((0:ℚ), 100), ((300:ℚ), 400)]) =
      (((([((0:ℚ), 100), ((300:ℚ), 400)] : List (ℚ × ℕ)).map Prod.snd).sum : ℕ) : ℚ) /
        ((((5:ℤ) - 0 : ℤ) : ℚ) + 1) :=
  ⟨eval_w2_lo_bound, eval_w2_lo_mem, eval_w2_hi_bound, eval_w2_hi_mem, by decide,
    claim_C2_amended [((0:ℚ), 100), ((300:ℚ), 400)] 0 5 eval_w2_lo_bound eval_w2_lo_mem
      eval_w2_hi_bound eval_w2_hi_mem (by decide)⟩

lemma monthlyGroups_eq (daily : List DayEntry) :
    monthlyGroups daily =
      daily.foldl (fun a x => upsertA a x.monthKey
        (fun g => { month := x.monthKey, totalCost := g.totalCost + x.totalCost,
                    totalSessions := g.totalSessions + x.totalSessions })
        { month := "", totalCost := 0, totalSessions := 0 }) [] := rfl

lemma lookupA_foldl_upsertA_nil {κ α β : Type} [BEq κ] [LawfulBEq κ] (key : β → κ)
    (step : β → α → α) (init : α) (l : List β) (k : κ) :
    lookupA (l.foldl (fun a x => upsertA a (key x) (step x) init) []) k =
      if l.any (fun x => key x == k) then
        some ((l.filter (fun x => key x == k)).foldl (fun a x => step x a) init)
      else none := by
  rw [lookupA_foldl_upsertA]
  rfl

lemma month_fold_totalCost (days : List DayEntry) :
    ∀ g : MonthEntry,
      (days.foldl (fun a d =>
        ({ month := d.monthKey, totalCost := a.totalCost + d.totalCost,
           totalSessions := a.totalSessions + d.totalSessions } : MonthEntry)) g).totalCost =
        g.totalCost + (days.map DayEntry.totalCost).sum := by
  induction days with
  | nil => intro g; simp
  | cons d t ih =>
    intro g
    rw [List.foldl_cons, ih]
    simp only [List.map_cons, List.sum_cons]
    ring

lemma month_fold_month : ∀ (days : List DayEntry) (k : String) (g : MonthEntry),
    (∀ d ∈ days, d.monthKey = k) → days ≠ [] →
    (days.foldl (fun a d =>
      ({ month := d.monthKey, totalCost := a.totalCost + d.totalCost,
         totalSessions := a.totalSessions + d.totalSessions } : MonthEntry)) g).month = k := by
  intro days
  induction days with
  | nil => intro k g _ hne; exact absurd rfl hne
  | cons d t ih =>
    intro k g hall _
    rw [List.foldl_cons]
    cases t with
    | nil =>
      rw [List.foldl_nil]
      exact hall d (List.mem_cons_self d [])
    | cons b t' =>
      exact ih k _ (fun x hx => hall x (List.mem_cons_of_mem d hx)) (by simp)

lemma nodup_keys_monthlyGroups (daily : List DayEntry) :
    (keysOf (monthlyGroups daily)).Nodup := by
  rw [monthlyGroups_eq]
  exact nodup_keys_foldl_upsert _ _ _ _ _ (by simp [keysOf])

lemma pySliceLast_subset {α : Type} (k : Nat) (l : List α) : pySliceLast k l ⊆ l := by
  unfold pySliceLast
  by_cases hk : k = 0
  · rw [if_pos hk]
    exact fun a ha => ha
  · rw [if_neg hk]
    exact List.drop_subset _ _

/-- Claim C3: every MonthlyRollup entry's totalCost is the sum of the daily
breakdown's totalCost over exactly the dates whose first 7 characters equal
the entry's month — the monthly view is a consistent derivation of the daily
view, itself derived from the session aggregates. -/
theorem claim_C3_monthly_consistency (session_data : List SessionOut)
    (limitD limitM : Option Nat) (e : MonthEntry)
    (he : e ∈ process_monthly_data (process_daily_with_projects session_data limitD) limitM) :
    e.totalCost = (((process_daily_with_projects session_data limitD).filter
        (fun d => strTake d.date 7 == e.month)).map DayEntry.totalCost).sum := by
  have h1 : e ∈ ((monthlyGroups (process_daily_with_projects session_data limitD)).map
      Prod.snd) := by
    have hsub := pySliceLast_subset (pyOr limitM 10)
      (((monthlyGroups (process_daily_with_projects session_data limitD)).map
        Prod.snd).insertionSort (fun a b => ¬ strLt b.month a.month))
    have hperm := List.perm_insertionSort (fun a b : MonthEntry => ¬ strLt b.month a.month)
      ((monthlyGroups (process_daily_with_projects session_data limitD)).map Prod.snd)
    exact hperm.mem_iff.mp (hsub he)
  obtain ⟨p, hp, hpe⟩ := List.mem_map.mp h1
  have hp2 : (p.1, e) ∈ monthlyGroups (process_daily_with_projects session_data limitD) := by
    rw [← hpe]
    exact hp
  have hnd := nodup_keys_monthlyGroups (process_daily_with_projects session_data limitD)
  have hlook : lookupA (monthlyGroups (process_daily_with_projects session_data limitD))
      p.1 = some e := lookupA_eq_some_of_mem _ hnd p.1 e hp2
  rw [monthlyGroups_eq, lookupA_foldl_upsertA_nil] at hlook
  by_cases hany : ((process_daily_with_projects session_data limitD).any
      (fun d => d.monthKey == p.1)) = true
  · rw [if_pos hany] at hlook
    have he2 : e = ((process_daily_with_projects session_data limitD).filter
        (fun d => d.monthKey == p.1)).foldl (fun a d =>
          ({ month := d.monthKey, totalCost := a.totalCost + d.totalCost,
             totalSessions := a.totalSessions + d.totalSessions } : MonthEntry))
        { month := "", totalCost := 0, totalSessions := 0 } := (Option.some.inj hlook).symm
    have hmonth : e.month = p.1 := by
      rw [he2]
      apply month_fold_month
      · intro d hd
        exact eq_of_beq (List.mem_filter.mp hd).2
      · obtain ⟨d, hd, hdk⟩ := List.any_eq_true.mp hany
        intro hnil
        have hdf : d ∈ (process_daily_with_projects session_data limitD).filter
            (fun d => d.monthKey == p.1) := List.mem_filter.mpr ⟨hd, hdk⟩
        rw [hnil] at hdf
        cases hdf
    have hcost : e.totalCost =
        (0 : ℚ) + (((process_daily_with_projects session_data limitD).filter
          (fun d => d.monthKey == p.1)).map DayEntry.totalCost).sum := by
      rw [he2]
      exact month_fold_totalCost _ _
    rw [zero_add] at hcost
    rw [hmonth]
    rw [show (fun d : DayEntry => strTake d.date 7 == p.1) =
      (fun d : DayEntry => d.monthKey == p.1) from rfl]
    exact hcost
  · rw [if_neg hany] at hlook
    exact absurd hlook (by simp)

section RatEvalD

attribute [local semireducible] Rat.add Rat.mul Rat.sub Rat.inv

lemma eval_c3_mem :
    (⟨"2024-01", 5, 2⟩ : MonthEntry) ∈ process_monthly_data
      (process_daily_with_projects
        [⟨"-proj-alpha", "alpha", 1, 0, 0, 0, 2, "2024-01-02", []⟩,
         ⟨"-proj-beta", "beta", 1, 0, 0, 0, 3, "2024-01-05", []⟩,
         ⟨"-proj-gamma", "gamma", 1, 0, 0, 0, 5, "2024-02-01", []⟩] none) none := by
  decide

end RatEvalD

/-- Witness for C3 at a concrete session list: the 2024-01 rollup's cost 5
equals the sum over the two January days (2 + 3). -/
theorem claim_C3_witness :
    ((⟨"2024-01", 5, 2⟩ : MonthEntry) ∈ process_monthly_data
      (process_daily_with_projects
        [⟨"-proj-alpha", "alpha", 1, 0, 0, 0, 2, "2024-01-02", []⟩,
         ⟨"-proj-beta", "beta", 1, 0, 0, 0, 3, "2024-01-05", []⟩,
         ⟨"-proj-gamma", "gamma", 1, 0, 0, 0, 5, "2024-02-01", []⟩] none) none) ∧
    (⟨"2024-01", 5, 2⟩ : MonthEntry).totalCost =
      (((process_daily_with_projects
        [⟨"-proj-alpha", "alpha", 1, 0, 0, 0, 2, "2024-01-02", []⟩,
         ⟨"-proj-beta", "beta", 1, 0, 0, 0, 3, "2024-01-05", []⟩,
         ⟨"-proj-gamma", "gamma", 1, 0, 0, 0, 5, "2024-02-01", []⟩] none).filter
        (fun d => strTake d.date 7 == (⟨"2024-01", 5, 2⟩ : MonthEntry).month)).map
          DayEntry.totalCost).sum :=
  ⟨eval_c3_mem,
    claim_C3_monthly_consistency
      [⟨"-proj-alpha", "alpha", 1, 0, 0, 0, 2, "2024-01-02", []⟩,
       ⟨"-proj-beta", "beta", 1, 0, 0, 0, 3, "2024-01-05", []⟩,
       ⟨"-proj-gamma", "gamma", 1, 0, 0, 0, 5, "2024-02-01", []⟩] none none
      ⟨"2024-01", 5, 2⟩ eval_c3_mem⟩

/-- Strict lexicographic order on sort keys. -/
def keyLT (a b : ℚ × ℚ) : Prop := a.1 < b.1 ∨ (a.1 = b.1 ∧ a.2 < b.2)

lemma keyLE_total (a b : ℚ × ℚ) : keyLE a b ∨ keyLE b a := by
  rcases lt_trichotomy a.1 b.1 with h | h | h
  · exact Or.inl (Or.inl h)
  · rcases le_total a.2 b.2 with h2 | h2
    · exact Or.inl (Or.inr ⟨h, h2⟩)
    · exact Or.inr (Or.inr ⟨h.symm, h2⟩)
  · exact Or.inr (Or.inl h)

lemma keyLE_trans (a b c : ℚ × ℚ) (h1 : keyLE a b) (h2 : keyLE b c) : keyLE a c := by
  rcases h1 with h1 | ⟨h1e, h1le⟩ <;> rcases h2 with h2 | ⟨h2e, h2le⟩
  · exact Or.inl (lt_trans h1 h2)
  · exact Or.inl (h2e ▸ h1)
  · exact Or.inl (h1e ▸ h2)
  · exact Or.inr ⟨h1e.trans h2e, le_trans h1le h2le⟩

lemma keyLT_asymm (a b : ℚ × ℚ) (h1 : keyLT a b) (h2 : keyLT b a) : False := by
  rcases h1 with h1 | ⟨h1e, h1lt⟩ <;> rcases h2 with h2 | ⟨h2e, h2lt⟩
  · exact lt_asymm h1 h2
  · rw [h2e] at h1
    exact lt_irrefl _ h1
  · rw [h1e] at h2
    exact lt_irrefl _ h2
  · exact lt_asymm h1lt h2lt

lemma keyLE_ne_imp_keyLT (a b : ℚ × ℚ) (h : keyLE a b) (hne : a ≠ b) : keyLT a b := by
  rcases h with h | ⟨he, hle⟩
  · exact Or.inl h
  · rcases lt_or_eq_of_le hle with h2 | h2
    · exact Or.inr ⟨he, h2⟩
    · exact absurd (Prod.ext_iff.mpr ⟨he, h2⟩) hne

/-- One-event session file A: mtime 0, fingerprint `msg:req` at t = 0. -/
def fileA : FileData := ⟨"a.jsonl", 0, "-proj-alpha", [demoEvent (.parsed 0)]⟩

/-- One-event session file B in a different session directory, with the same
mtime, the same fingerprint and the same timestamp as file A. -/
def fileB : FileData := ⟨"b.jsonl", 0, "-proj-beta", [demoEvent (.parsed 0)]⟩

section RatEvalE

attribute [local semireducible] Rat.add Rat.mul Rat.sub Rat.inv

lemma eval_c8_fwd : aggregate_corpus demoCfg [fileA, fileB] =
    [⟨"-proj-alpha", "alpha", 10, 0, 0, 0, 1, "1970-01-01", ["claude-model"]⟩] := by
  decide

lemma eval_c8_bwd : aggregate_corpus demoCfg [fileB, fileA] =
    [⟨"-proj-beta", "beta", 10, 0, 0, 0, 1, "1970-01-01", ["claude-model"]⟩] := by
  decide

end RatEvalE

/-- Claim C8, counterexample: the two corpora are the same multiset of
files, but the enumeration order decides which session the duplicated
fingerprint is attributed to, because the two files tie on the (mtime,
secondary timestamp) sort key and the sort is stable: the aggregates
differ. -/
theorem claim_C8_counterexample :
    ([fileA, fileB] : List FileData).Perm [fileB, fileA] ∧
    aggregate_corpus demoCfg [fileA, fileB] ≠ aggregate_corpus demoCfg [fileB, fileA] := by
  refine ⟨List.Perm.swap fileB fileA [], ?_⟩
  rw [eval_c8_fwd, eval_c8_bwd]
  decide

/-- Claim C8 as amended: the aggregation result is a deterministic function
of the enumerated file list, and whenever all files carry pairwise-distinct
(mtime, secondary timestamp) sort keys it is a deterministic function of the
corpus as a multiset: any two enumeration orders of the same files yield the
same session aggregates.  (With tied sort keys the enumeration order can
move a duplicated event between sessions, as the counterexample shows.) -/
theorem claim_C8_amended (cfg : Config) (l₁ l₂ : List FileData)
    (hperm : l₁.Perm l₂)
    (hkeys : l₁.Pairwise (fun f g =>
      fileSortKey l₁.length f ≠ fileSortKey l₁.length g)) :
    aggregate_corpus cfg l₁ = aggregate_corpus cfg l₂ := by
  have hlen : l₂.length = l₁.length := hperm.length_eq.symm
  have hs2 : sort_all_files_by_timestamp l₂ =
      l₂.insertionSort (fun f g =>
        keyLE (fileSortKey l₁.length f) (fileSortKey l₁.length g)) := by
    unfold sort_all_files_by_timestamp
    rw [hlen]
  have hs1 : sort_all_files_by_timestamp l₁ =
      l₁.insertionSort (fun f g =>
        keyLE (fileSortKey l₁.length f) (fileSortKey l₁.length g)) := rfl
  haveI instTot : IsTotal FileData (fun f g =>
      keyLE (fileSortKey l₁.length f) (fileSortKey l₁.length g)) :=
    ⟨fun a b => keyLE_total _ _⟩
  haveI instTr : IsTrans FileData (fun f g =>
      keyLE (fileSortKey l₁.length f) (fileSortKey l₁.length g)) :=
    ⟨fun a b c => keyLE_trans _ _ _⟩
  haveI instAnti : IsAntisymm FileData (fun f g =>
      keyLT (fileSortKey l₁.length f) (fileSortKey l₁.length g) ∨ f = g) := ⟨by
    rintro a b (h1 | h1) (h2 | h2)
    · exact (keyLT_asymm _ _ h1 h2).elim
    · exact h2.symm
    · exact h1
    · exact h1⟩
  have hsym : ∀ {x y : FileData},
      fileSortKey l₁.length x ≠ fileSortKey l₁.length y →
      fileSortKey l₁.length y ≠ fileSortKey l₁.length x := fun h he => h he.symm
  have hp1 := List.perm_insertionSort (fun f g =>
    keyLE (fileSortKey l₁.length f) (fileSortKey l₁.length g)) l₁
  have hp2 := List.perm_insertionSort (fun f g =>
    keyLE (fileSortKey l₁.length f) (fileSortKey l₁.length g)) l₂
  have hpp : (l₁.insertionSort (fun f g =>
      keyLE (fileSortKey l₁.length f) (fileSortKey l₁.length g))).Perm
      (l₂.insertionSort (fun f g =>
        keyLE (fileSortKey l₁.length f) (fileSortKey l₁.length g))) :=
    hp1.trans (hperm.trans hp2.symm)
  have hsort1 := List.sorted_insertionSort (fun f g =>
    keyLE (fileSortKey l₁.length f) (fileSortKey l₁.length g)) l₁
  have hsort2 := List.sorted_insertionSort (fun f g =>
    keyLE (fileSortKey l₁.length f) (fileSortKey l₁.length g)) l₂
  have hkeys1 : (l₁.insertionSort (fun f g =>
      keyLE (fileSortKey l₁.length f) (fileSortKey l₁.length g))).Pairwise
      (fun f g => fileSortKey l₁.length f ≠ fileSortKey l₁.length g) :=
    (hp1.pairwise_iff hsym).mpr hkeys
  have hkeys2 : (l₂.insertionSort (fun f g =>
      keyLE (fileSortKey l₁.length f) (fileSortKey l₁.length g))).Pairwise
      (fun f g => fileSortKey l₁.length f ≠ fileSortKey l₁.length g) :=
    (hp2.pairwise_iff hsym).mpr ((hperm.pairwise_iff hsym).mp hkeys)
  have hst1 : (l₁.insertionSort (fun f g =>
      keyLE (fileSortKey l₁.length f) (fileSortKey l₁.length g))).Sorted (fun f g =>
        keyLT (fileSortKey l₁.length f) (fileSortKey l₁.length g) ∨ f = g) :=
    (hsort1.and hkeys1).imp (fun h => Or.inl (keyLE_ne_imp_keyLT _ _ h.1 h.2))
  have hst2 : (l₂.insertionSort (fun f g =>
      keyLE (fileSortKey l₁.length f) (fileSortKey l₁.length g))).Sorted (fun f g =>
        keyLT (fileSortKey l₁.length f) (fileSortKey l₁.length g) ∨ f = g) :=
    (hsort2.and hkeys2).imp (fun h => Or.inl (keyLE_ne_imp_keyLT _ _ h.1 h.2))
  have hss := List.eq_of_perm_of_sorted hpp hst1 hst2
  unfold aggregate_corpus
  rw [hs1, hs2, hss]

/-- One-event session files with distinct mtimes (0 and 100), for the
witness of the amended C8. -/
def fileC : FileData := ⟨"c.jsonl", 0, "-proj-c", [demoEvent (.parsed 0)]⟩

/-- Companion file to `fileC` with mtime 100. -/
def fileD : FileData := ⟨"d.jsonl", 100, "-proj-d", [demoEvent (.parsed 100)]⟩

/-- Witness for the amended C8 at a two-file corpus with distinct sort keys:
both enumeration orders aggregate identically. -/
theorem claim_C8_amended_witness :
    ([fileC, fileD] : List FileData).Perm [fileD, fileC] ∧
    ([fileC, fileD] : List FileData).Pairwise (fun f g =>
      fileSortKey ([fileC, fileD] : List FileData).length f ≠
        fileSortKey ([fileC, fileD] : List FileData).length g) ∧
    aggregate_corpus demoCfg [fileC, fileD] = aggregate_corpus demoCfg [fileD, fileC] :=
  ⟨List.Perm.swap fileD fileC [], by decide,
    claim_C8_amended demoCfg [fileC, fileD] [fileD, fileC]
      (List.Perm.swap fileD fileC []) (by decide)⟩

end ClaudeUsage
